import Mathlib

/-!
Verification development for the Library AI backend (Node.js/Express server
`server.js`, the current revision embedded at the end of the repository's
README).  The retrieval pipeline — token normalisation and expansion
(`getExpandedTokens`), auto-derived synonyms (`buildAutoSynonymsFromTitles`),
cosine similarity, the hybrid `searchBooks` ranker and the `/ask-ai` route —
is shallowly embedded below.  JavaScript strings are modelled through their
character lists (`String.data`), JavaScript numbers used for scores are
idealised as real numbers (`ℝ`; IEEE-754 rounding is out of scope), and the
two external collaborators (the Cloudant document store and the watsonx.ai
embedding/generation service) are modelled as explicit parameters returning
`Except Unit _`, with every outgoing call recorded in a trace.
-/

set_option maxHeartbeats 1000000
set_option linter.unusedVariables false

namespace LibraryAI

/-! ### Character and string helpers

JavaScript operates on strings; we mirror the operations the server uses on
the underlying character lists.  All text the pipeline manipulates is ASCII
(the regexes and keyword tables only contain ASCII), so `Char.toLower` and
`Char.isAlphanum` faithfully model `toLowerCase` and the `\w` / `[a-z0-9]`
character classes on the inputs of interest. -/

/-- A `\w` word character: `[A-Za-z0-9_]`. -/
def isWordChar (c : Char) : Bool := c.isAlphanum || c = '_'

/-- A `\s` whitespace character (ASCII fragment). -/
def isWsChar (c : Char) : Bool := c = ' ' || c = '\t' || c = '\n' || c = '\r'

/-- `text.toLowerCase()` on the character list. -/
def lowerC (l : List Char) : List Char := l.map Char.toLower

/-- Characters of `str.trim()`: strip leading and trailing whitespace. -/
def trimC (l : List Char) : List Char :=
  ((l.dropWhile isWsChar).reverse.dropWhile isWsChar).reverse

/-- Does `pat` occur at the very start of `l`?  (Literal match.) -/
def beginsC : List Char → List Char → Bool
  | [], _ => true
  | _ :: _, [] => false
  | p :: ps, c :: cs => p = c && beginsC ps cs

/-- `text.includes(pat)`: does `pat` occur anywhere in `l`? -/
def containsC (pat : List Char) : List Char → Bool
  | [] => beginsC pat []
  | c :: cs => beginsC pat (c :: cs) || containsC pat cs

/-- `str.endsWith(suf)` over character lists. -/
def endsC (suf : List Char) (l : List Char) : Bool :=
  beginsC suf.reverse l.reverse

/-- `str.slice(0, -n)` over character lists: drop the last `n` characters. -/
def dropLastC (n : Nat) (l : List Char) : List Char := l.take (l.length - n)

/-- Splitting on a separator predicate, keeping (possibly empty) chunks, as
`String.prototype.split` does; the server filters the empties away
afterwards, which makes this equivalent to splitting on `/\W+/`. -/
def splitChunks (p : Char → Bool) : List Char → List Char → List (List Char)
  | acc, [] => [acc.reverse]
  | acc, c :: cs =>
    if p c then acc.reverse :: splitChunks p [] cs else splitChunks p (c :: acc) cs

/-! ### Token normalizer and expander (`getExpandedTokens`, README l.908–956)

The expander's process-wide state — the title vocabulary `TITLE_VOCAB` and
the auto-derived table `AUTO_SYNONYMS`, both built at startup from
`books.json` — is passed in explicitly (`vocab`, `autosyn`); the claims
quantify over it. -/

/-- The stop-word set of `getExpandedTokens` (README l.909–914). -/
def stopWords : List String :=
  ["do", "you", "have", "the", "a", "an", "is", "are",
   "books", "book", "any", "of", "for", "with", "and",
   "please", "want", "need", "show", "find", "about",
   "hi", "hello", "hey"]

/-- The chunks of `text.toLowerCase().split(/\W+/)` (before any filtering). -/
def chunkStrings (text : String) : List String :=
  (splitChunks (fun c => !isWordChar c) [] (lowerC text.data)).map String.mk

/-- The raw content tokens of a text: lowercased `\W+`-split tokens that are
non-empty, longer than two characters and not stop words
(README l.916–919). -/
def rawContentTokens (text : String) : List String :=
  (chunkStrings text).filter
    (fun w => !(w == "") && decide (2 < w.data.length) && !stopWords.contains w)

/-- The curated domain synonym table `SYNONYM_MAP` (README l.713–906),
transcribed verbatim in source order. -/
def SYNONYM_MAP : List (String × List String) :=
  [("maths", ["math", "mathematics"]),
   ("algebra", ["math", "mathematics", "linear", "equations"]),
   ("geometry", ["math", "mathematics", "shapes", "proofs"]),
   ("calculus", ["math", "mathematics", "differential", "integral"]),
   ("trigonometry", ["math", "mathematics", "angles", "triangles"]),
   ("statistics", ["math", "mathematics", "probability", "data", "analytics"]),
   ("probability", ["math", "mathematics", "statistics", "stochastic"]),
   ("linear", ["algebra", "math", "mathematics"]),
   ("discrete", ["math", "mathematics", "structures", "logic"]),
   ("vector", ["algebra", "math", "mathematics"]),
   ("differential", ["calculus", "math", "mathematics"]),
   ("integral", ["calculus", "math", "mathematics"]),
   ("numerical", ["methods", "math", "mathematics"]),
   ("numericalmethods", ["methods", "math", "mathematics"]),
   ("matrices", ["linear", "algebra", "math"]),
   ("optimization", ["math", "mathematics", "operations", "research"]),
   ("operations-research", ["optimization", "math", "mathematics"]),
   ("ops", ["operations", "research", "optimization"]),
   ("c++", ["cpp", "programming", "coding", "software", "computer", "cs"]),
   ("cpp", ["c++", "programming", "coding", "software", "computer", "cs"]),
   ("c#", ["csharp", "programming", "coding", "software", "computer", "cs"]),
   ("csharp", ["c#", "programming", "coding", "software", "computer", "cs"]),
   ("c", ["programming", "coding", "software", "computer", "cs"]),
   ("java", ["programming", "coding", "software", "computer", "cs"]),
   ("python", ["programming", "coding", "software", "computer", "cs"]),
   ("javascript", ["programming", "coding", "software", "computer", "cs", "web"]),
   ("typescript", ["programming", "coding", "software", "computer", "cs", "web"]),
   ("php", ["programming", "coding", "software", "web"]),
   ("ruby", ["programming", "coding", "software", "web"]),
   ("go", ["golang", "programming", "coding", "software"]),
   ("golang", ["go", "programming", "coding", "software"]),
   ("swift", ["programming", "coding", "software"]),
   ("kotlin", ["programming", "coding", "software"]),
   ("scala", ["programming", "coding", "software"]),
   ("rust", ["programming", "coding", "software"]),
   ("perl", ["programming", "coding", "software"]),
   ("bash", ["shell", "scripting", "linux"]),
   ("shell", ["scripting", "linux", "unix"]),
   ("scripting", ["programming", "coding", "automation"]),
   ("programming", ["coding", "software", "computer", "cs"]),
   ("coding", ["programming", "software", "computer", "cs"]),
   ("software", ["programming", "coding", "computer", "cs"]),
   ("computer", ["programming", "coding", "software", "cs"]),
   ("cs", ["computer", "science", "programming", "coding", "software"]),
   ("dsa", ["data", "structures", "algorithms", "coding", "programming", "cs"]),
   ("algorithm", ["algorithms", "coding", "programming", "cs"]),
   ("algorithms", ["algorithm", "coding", "programming", "cs"]),
   ("datastructure", ["data", "structures", "coding", "programming", "cs"]),
   ("data-structure", ["data", "structures", "coding", "programming", "cs"]),
   ("data-structures", ["data", "structures", "coding", "programming", "cs"]),
   ("structures", ["data", "structures", "dsa", "cs"]),
   ("complexity", ["algorithms", "analysis", "cs"]),
   ("graph", ["graphs", "algorithms", "ds"]),
   ("graphs", ["graph", "algorithms", "ds"]),
   ("dbms", ["database", "databases", "db", "sql", "rdbms"]),
   ("rdbms", ["dbms", "database", "databases", "sql"]),
   ("database", ["db", "data", "sql", "storage"]),
   ("databases", ["database", "db", "data", "sql", "storage"]),
   ("db", ["database", "data", "sql", "storage"]),
   ("sql", ["database", "db", "data", "query"]),
   ("nosql", ["database", "db", "data", "storage"]),
   ("data", ["analytics", "database", "statistics"]),
   ("analytics", ["data", "statistics", "business"]),
   ("datawarehouse", ["warehouse", "database", "etl", "analytics"]),
   ("warehouse", ["data", "etl", "analytics"]),
   ("etl", ["data", "pipeline", "warehouse"]),
   ("mongodb", ["nosql", "database"]),
   ("mysql", ["sql", "database"]),
   ("postgresql", ["sql", "database"]),
   ("oracle", ["sql", "database"]),
   ("web", ["internet", "network", "http", "www"]),
   ("networking", ["network", "communications", "protocols"]),
   ("network", ["networking", "communications", "protocols"]),
   ("networks", ["network", "networking", "communications"]),
   ("protocol", ["protocols", "networking"]),
   ("protocols", ["protocol", "networking"]),
   ("tcp", ["ip", "networking", "protocols"]),
   ("udp", ["ip", "networking", "protocols"]),
   ("http", ["web", "internet"]),
   ("https", ["web", "security"]),
   ("security", ["cyber", "cryptography", "network", "systems"]),
   ("cyber", ["security", "cryptography", "network", "systems"]),
   ("cryptography", ["security", "cyber", "encryption"]),
   ("encryption", ["cryptography", "security"]),
   ("firewall", ["security", "network"]),
   ("malware", ["security", "cyber"]),
   ("forensics", ["security", "cyber"]),
   ("hacking", ["security", "cyber"]),
   ("os", ["operating", "systems", "kernel", "computer"]),
   ("operating", ["os", "systems", "kernel"]),
   ("systems", ["system", "computer", "os"]),
   ("system", ["systems", "computer", "os"]),
   ("linux", ["operating", "systems", "unix"]),
   ("unix", ["operating", "systems", "linux"]),
   ("kernel", ["os", "systems"]),
   ("windows", ["os", "systems"]),
   ("electronics", ["electronic", "circuits", "electrical"]),
   ("electronic", ["electronics", "circuits", "electrical"]),
   ("circuits", ["electronics", "electrical"]),
   ("electrical", ["electronics", "circuits", "power"]),
   ("power", ["electrical", "energy", "machines"]),
   ("communication", ["communications", "signal", "network"]),
   ("communications", ["communication", "signal", "network"]),
   ("signal", ["signals", "communication", "communications"]),
   ("signals", ["signal", "communication", "communications"]),
   ("analog", ["electronics", "circuits"]),
   ("digital", ["electronics", "circuits"]),
   ("microprocessor", ["processor", "electronics", "computer"]),
   ("microcontroller", ["embedded", "electronics"]),
   ("embedded", ["microcontroller", "electronics", "systems"]),
   ("mechanics", ["mechanical", "physics", "machines"]),
   ("mechanical", ["mechanics", "machines", "engineering"]),
   ("thermodynamics", ["thermal", "heat", "energy", "mechanics"]),
   ("fluid", ["fluids", "mechanics", "hydraulics"]),
   ("fluids", ["fluid", "mechanics", "hydraulics"]),
   ("materials", ["material", "metallurgy", "engineering"]),
   ("material", ["materials", "metallurgy", "engineering"]),
   ("metallurgy", ["materials", "material", "engineering"]),
   ("strength", ["materials", "mechanics"]),
   ("kinematics", ["mechanics", "physics"]),
   ("dynamics", ["mechanics", "physics"]),
   ("hydraulics", ["fluid", "mechanics"]),
   ("manufacturing", ["production", "engineering"]),
   ("production", ["manufacturing", "engineering"]),
   ("management", ["business", "strategy", "operations"]),
   ("business", ["management", "finance", "economics"]),
   ("finance", ["business", "accounting", "economics"]),
   ("accounting", ["finance", "business", "economics"]),
   ("economics", ["business", "finance", "management"]),
   ("marketing", ["business", "management"]),
   ("hr", ["management", "business"]),
   ("operations", ["management", "business"]),
   ("ai", ["artificial", "intelligence", "machine", "learning", "ml"]),
   ("artificial", ["ai", "intelligence"]),
   ("intelligence", ["ai", "artificial"]),
   ("ml", ["machine", "learning", "ai"]),
   ("machine", ["learning", "ai"]),
   ("learning", ["machine", "ai", "ml"]),
   ("data-science", ["data", "analytics", "statistics", "ml"]),
   ("deeplearning", ["deep", "learning", "ai", "ml"]),
   ("deep", ["learning", "ai", "ml"]),
   ("neural", ["networks", "ai", "ml"]),
   ("nlp", ["language", "ai", "ml"]),
   ("vision", ["computer vision", "ai"]),
   ("cv", ["computer vision", "ai"]),
   ("physics", ["mechanics", "quantum", "thermodynamics"]),
   ("quantum", ["physics"]),
   ("optics", ["physics", "light"]),
   ("chemistry", ["chemical", "chem"]),
   ("chemical", ["chemistry"]),
   ("biology", ["bio", "biological"]),
   ("bio", ["biology"]),
   ("civil", ["construction", "structural", "engineering"]),
   ("structural", ["civil", "construction"]),
   ("architecture", ["design", "building"]),
   ("cloud", ["computing", "aws", "azure", "gcp"]),
   ("aws", ["cloud", "computing"]),
   ("azure", ["cloud", "computing"]),
   ("gcp", ["cloud", "computing"]),
   ("devops", ["automation", "ci", "cd"]),
   ("docker", ["containers", "devops"]),
   ("kubernetes", ["containers", "devops"]),
   ("se", ["software", "engineering"]),
   ("testing", ["software", "qa"]),
   ("qa", ["testing", "software"])]

/-- Insertion into a JavaScript `Set` modelled on an insertion-ordered list:
append the element unless it is already present. -/
def setAdd (l : List String) (x : String) : List String :=
  if x ∈ l then l else l ++ [x]

/-- `addIfInVocab` (README l.936–940): add a morphological variant to the
token set only when it is non-empty and attested in the title vocabulary. -/
def addIfInVocab (vocab : List String) (w : String) (acc : List String) : List String :=
  if w ≠ "" ∧ w ∈ vocab then setAdd acc w else acc

/-- The morphological-variant pass for one raw token
(README l.942–953), in source order. -/
def morphAdd (vocab : List String) (t : String) (acc : List String) : List String :=
  let d := t.data
  let acc := if endsC "ies".data d ∧ 4 < d.length then
      addIfInVocab vocab (String.mk (dropLastC 3 d ++ ['y'])) acc else acc
  let acc := if endsC "es".data d ∧ 4 < d.length then
      addIfInVocab vocab (String.mk (dropLastC 2 d)) acc else acc
  let acc := if endsC "s".data d ∧ 3 < d.length then
      addIfInVocab vocab (String.mk (dropLastC 1 d)) acc else acc
  let acc := if ¬ endsC "s".data d then
      addIfInVocab vocab (String.mk (d ++ "es".data))
        (addIfInVocab vocab (String.mk (d ++ "s".data)) acc) else acc
  let acc := if endsC "ics".data d ∧ 4 < d.length then
      addIfInVocab vocab (String.mk (dropLastC 1 d)) acc else acc
  let acc := if endsC "ic".data d ∧ 3 < d.length then
      addIfInVocab vocab (String.mk (d ++ "s".data)) acc else acc
  if endsC "ing".data d ∧ 5 < d.length then
      addIfInVocab vocab (String.mk (dropLastC 3 d)) acc else acc

/-- `getExpandedTokens` (README l.908–956): raw tokens, curated synonyms,
auto-derived synonyms, then vocabulary-validated morphological variants.
`vocab` models `TITLE_VOCAB` and `autosyn` models `AUTO_SYNONYMS`. -/
def getExpandedTokens (vocab : List String) (autosyn : List (String × List String))
    (text : String) : List String :=
  let rawTokens := rawContentTokens text
  if rawTokens = [] then []
  else
    let s0 := rawTokens.foldl setAdd []
    let s1 := rawTokens.foldl (fun acc t =>
      let acc1 := match SYNONYM_MAP.lookup t with
        | some extras => extras.foldl setAdd acc
        | none => acc
      match autosyn.lookup t with
        | some auto => auto.foldl setAdd acc1
        | none => acc1) s0
    rawTokens.foldl (fun acc t => morphAdd vocab t acc) s1

/-! ### Catalog items

A Cloudant document as the server reads it (`_id`, fallback `id`, `title`,
`author`, optional cached `embedding`, `available`, `copies`, `max_pages`).
`cid` models `_id` and `jid` the plain `id` field; `copies`/`max_pages` are
`none` when the JSON field is absent or not a finite number. -/
structure Book where
  cid : String
  jid : String
  title : String
  author : String
  embedding : Option (List ℝ)
  available : Bool
  copies : Option Int
  max_pages : Option Int

/-! ### Title vocabulary and auto-derived synonyms
(`tokenizeTitle`, `buildAutoSynonymsFromTitles`, README l.644–710) -/

/-- The `[a-z0-9+#]` character class of `tokenizeTitle`. -/
def isTitleTokChar (c : Char) : Bool :=
  ('a' ≤ c && c ≤ 'z') || c.isDigit || c = '+' || c = '#'

/-- `tokenizeTitle` (README l.644–649): lowercase, split on
`/[^a-z0-9+#]+/`, keep tokens longer than two characters. -/
def tokenizeTitle (title : String) : List String :=
  ((splitChunks (fun c => !isTitleTokChar c) [] (lowerC title.data)).map String.mk).filter
    (fun t => !(t == "") && decide (2 < t.data.length))

/-- The stop list local to `buildAutoSynonymsFromTitles` (README l.672–676). -/
def autoStop : List String :=
  ["and", "for", "the", "with", "using", "guide", "book", "text", "textbook", "vol", "volume",
   "edition", "principles", "introduction", "approach", "basic", "advanced", "course",
   "students", "student", "units", "center", "modern", "engineering", "engineers"]

/-- `Array.from(new Set(tokens))`: first-occurrence deduplication in
insertion order. -/
def dedupFirst (l : List String) : List String := l.foldl setAdd []

/-- The per-title token set used for co-occurrence counting
(README l.681–682): stop-filtered title tokens, deduplicated. -/
def uniqTokens (title : String) : List String :=
  dedupFirst ((tokenizeTitle title).filter (fun t => !autoStop.contains t))

/-- `mapA.set(bTok, (mapA.get(bTok) || 0) + 1)` on an insertion-ordered
association list: increment in place or append with count 1. -/
def bump (m : List (String × Nat)) (s : String) : List (String × Nat) :=
  if (m.lookup s).isSome then
    m.map (fun p => if p.1 = s then (p.1, p.2 + 1) else p)
  else m ++ [(s, 1)]

/-- The inner `j` loop of `buildAutoSynonymsFromTitles` for the fixed key
`t`: bump every unique title token except `t` itself (the `i === j` skip;
`uniq` has no duplicates, so skipping the index is skipping the token). -/
def bumpAll (m : List (String × Nat)) (u : List String) (t : String) :
    List (String × Nat) :=
  u.foldl (fun m s => if s = t then m else bump m s) m

/-- The co-occurrence map `co.get(t)` of `buildAutoSynonymsFromTitles`
(README l.678–693) for the key `t`, as an insertion-ordered association
list: every book whose unique title tokens contain `t` bumps all its other
unique tokens. -/
def cooccList (t : String) (books : List Book) : List (String × Nat) :=
  books.foldl (fun m b =>
    let u := uniqTokens b.title
    if t ∈ u then bumpAll m u t else m) []

/-- The number of catalog entries whose (stop-filtered unique) title tokens
contain both `t` and `s` — the co-occurrence count the auto-synonym table
is built from.  For the non-stop tokens the table deals in, membership in
`uniqTokens` is exactly "the token appears in the title". -/
def countBoth (t s : String) (books : List Book) : Nat :=
  (books.filter (fun b => t ∈ uniqTokens b.title ∧ s ∈ uniqTokens b.title)).length

/-- Stable insertion step for a descending sort keyed by `key`: the new
element goes in front of the first element whose key is `≤` its own, i.e.
after every strictly greater key and before equal keys coming from later
input positions. -/
def insertDescBy {α : Type} {β : Type} [LinearOrder β] (key : α → β) (a : α) :
    List α → List α
  | [] => [a]
  | b :: l => if key b ≤ key a then a :: b :: l else b :: insertDescBy key a l

/-- A stable descending sort by `key`, modelling JavaScript's (stable)
`Array.prototype.sort` with comparator `(a, b) => key(b) - key(a)`. -/
def sortDescBy {α : Type} {β : Type} [LinearOrder β] (key : α → β) (l : List α) :
    List α :=
  l.foldr (insertDescBy key) []

/-- The auto-synonym list `AUTO_SYNONYMS[t]` (README l.695–707): pairs with
count ≥ 2, sorted by descending count (stable, so insertion order breaks
ties), capped at 6, projected to the tokens.  The table stores the list
only when it is non-empty; an absent key reads back as the empty list. -/
def autoSynonymsFor (t : String) (books : List Book) : List String :=
  ((sortDescBy (fun p => p.2) ((cooccList t books).filter (fun p => 2 ≤ p.2))).take 6).map
    (fun p => p.1)

/-! ### Cosine similarity (`cosineSimilarity`, README l.558–572)

JavaScript floating-point arithmetic is idealised over `ℝ`; the function's
single loop accumulates the dot product and both squared norms, which for
equal-length inputs coincide with the folds below. -/

/-- The accumulated `dot` of the `cosineSimilarity` loop. -/
noncomputable def dotp (a b : List ℝ) : ℝ := (List.zipWith (· * ·) a b).sum

/-- The accumulated `normA` (resp. `normB`) of the `cosineSimilarity` loop. -/
noncomputable def normSq (a : List ℝ) : ℝ := (a.map (fun x => x * x)).sum

/-- `cosineSimilarity` (README l.558–572): 0 on length mismatch, 0 when
either squared norm is 0, otherwise the guarded quotient.  The function is
total — the zero-norm guard is exactly the code's division-by-zero guard. -/
noncomputable def cosineSimilarity (a b : List ℝ) : ℝ :=
  if a.length ≠ b.length then 0
  else if normSq a = 0 ∨ normSq b = 0 then 0
  else dotp a b / (Real.sqrt (normSq a) * Real.sqrt (normSq b))

/-! ### The hybrid `searchBooks` pipeline (README l.1064–1205)

External calls are recorded in a trace; the store and embedding provider
are explicit parameters whose operations may fail (`Except Unit _`),
mirroring thrown exceptions.  `searchBooks` wraps everything in a
`try/catch` that converts any lexical-path failure into `[]`, and wraps the
semantic block in an inner `try/catch` that degrades it to no semantic
candidates. -/

/-- One scored candidate `{ doc, score }`. -/
structure Scored where
  doc : Book
  score : ℝ

/-- The kinds of external collaborator calls the server makes. -/
inductive ExtCall
  | auth
  | embed
  | storeAllDocs
  | storeSearch
  | storeGetDoc
  | render
  deriving DecidableEq, Repr

/-- The document store and embedding provider as the pipeline consumes
them: `queryEmbedding q` is `(await getEmbeddings([q]))[0]` (`none` models
an absent vector, `.error` a thrown call), `allDocs` is `postAllDocs`,
`searchRows` is `postSearch` returning row ids, `getDoc` is
`getDocument`. -/
structure Store where
  queryEmbedding : String → Except Unit (Option (List ℝ))
  allDocs : Except Unit (List Book)
  searchRows : String → Except Unit (List String)
  getDoc : String → Except Unit Book

/-- `codingKeywords` (README l.1073–1077). -/
def codingKeywords : List String :=
  ["coding", "programming", "program", "software", "computer", "cs", "dsa", "algorithm",
   "algorithms", "structures", "datastructures", "data-structures", "data structure",
   "data structures", "compiler", "java", "python", "javascript", "typescript", "c++",
   "cpp", "c#", "csharp"]

/-- `dsaIndicators` (README l.1081–1083). -/
def dsaIndicators : List String :=
  ["dsa", "algorithm", "algorithms", "data structure", "data structures",
   "data-structure", "data-structures", "datastructures"]

/-- `\s*structure` at the head of the list (backtracking tail of the
`data\s+structure` branch). -/
def wsStructure : List Char → Bool
  | [] => false
  | c :: cs => beginsC "structure".data (c :: cs) || (isWsChar c && wsStructure cs)

/-- `"data"` followed by one-or-more whitespace and `"structure"` starting
at the head of the list (the `data\s+structure` branch of the regex). -/
def dataStructureAt (l : List Char) : Bool :=
  beginsC "data".data l &&
    (match l.drop 4 with
     | [] => false
     | c :: cs => isWsChar c && wsStructure cs)

/-- `data\s+structure` occurring anywhere in the list. -/
def anyDataStructure : List Char → Bool
  | [] => false
  | c :: cs => dataStructureAt (c :: cs) || anyDataStructure cs

/-- `/data\s+structure|algorithms?/i.test(q)`: the optional `s?` is
irrelevant to a substring test, so this is containment of `algorithm` or of
`data` + whitespace + `structure`, case-insensitively. -/
def dsaRegexTest (q : String) : Bool :=
  containsC "algorithm".data (lowerC q.data) || anyDataStructure (lowerC q.data)

/-- `isCodingBook` (README l.1086–1090): any coding keyword occurs in the
lowercased title or author. -/
def isCodingBook (b : Book) : Bool :=
  codingKeywords.any (fun k =>
    containsC k.data (lowerC b.title.data) || containsC k.data (lowerC b.author.data))

/-- `isDSABook` (README l.1092–1095): any DSA indicator occurs in the
lowercased title. -/
def isDSABook (b : Book) : Bool :=
  dsaIndicators.any (fun k => containsC k.data (lowerC b.title.data))

/-- `t.replace(/[^a-z0-9]/gi, "").trim()`: keep only ASCII alphanumerics
(the trailing `trim` is then a no-op). -/
def cleanLuceneTok (t : String) : String := String.mk (t.data.filter Char.isAlphanum)

/-- The Lucene term list (README l.1125–1135): per cleaned token a
`title:` and `author:` clause, plus a `title:…*` wildcard clause for
cleaned tokens of length ≥ 4. -/
def luceneTermsOf (tokens : List String) : List String :=
  tokens.foldl (fun terms t =>
    let clean := cleanLuceneTok t
    if clean ≠ "" then
      let terms := terms ++ ["title:" ++ clean, "author:" ++ clean]
      if 4 ≤ clean.data.length then terms ++ ["title:" ++ clean ++ "*"] else terms
    else terms) []

/-- `terms.join(" OR ")` (README l.1138). -/
def luceneQueryOf (tokens : List String) : String :=
  String.intercalate " OR " (luceneTermsOf tokens)

/-- The fused-map key `item?.doc?._id || item?.doc?.id` (README l.1182). -/
def getBookId (b : Book) : String := if b.cid ≠ "" then b.cid else b.jid

/-- `Map.set` on an existing key: replace the value, keep the position. -/
def assocSet (m : List (String × Scored)) (id : String) (v : Scored) :
    List (String × Scored) :=
  m.map (fun p => if p.1 = id then (id, v) else p)

/-- One iteration of the `bestById` fusion loop (README l.1181–1188): skip
entries without an id, insert unseen ids, replace only on a strictly higher
score (`item.score > prev.score`), so on ties the earlier entry stays. -/
noncomputable def fuseStep (m : List (String × Scored)) (item : Scored) :
    List (String × Scored) :=
  let id := getBookId item.doc
  if id = "" then m
  else match m.lookup id with
    | none => m ++ [(id, item)]
    | some prev => if prev.score < item.score then assocSet m id item else m

/-- The `bestById` fusion fold (README l.1180–1188) over the combined
candidate list. -/
noncomputable def fuseBest (items : List Scored) : List (String × Scored) :=
  items.foldl fuseStep []

/-- The effect of one fused candidate on the running best entry for a fixed
id — the per-id shadow of `fuseStep`, used to state what the fusion fold
computes. -/
noncomputable def updOne (id : String) (cur : Option Scored) (item : Scored) :
    Option Scored :=
  if getBookId item.doc = id then
    match cur with
    | none => some item
    | some prev => if prev.score < item.score then some item else some prev
  else cur

/-- The running best entry for a fixed id over a candidate list. -/
noncomputable def runBest (id : String) (items : List Scored) (c : Option Scored) :
    Option Scored :=
  items.foldl (updOne id) c

/-- `ignoreTokens` (README l.1158). -/
def ignoreTokens : List String :=
  ["under", "below", "less", "than", "upto", "up", "to", "pages", "page"]

/-- `computeKeywordScore` (README l.1161–1172): `1 + matches/10`, plus
`0.5` when the query looks like a coding query and the book text contains a
coding keyword. -/
noncomputable def computeKeywordScore (queryContentTokens : List String)
    (looksLikeCodingQuery : Bool) (d : Book) : ℝ :=
  let text := lowerC (d.title ++ " " ++ d.author).data
  let count := (queryContentTokens.filter (fun t => containsC t.data text)).length
  let score : ℝ := 1 + (count : ℝ) / 10
  if looksLikeCodingQuery && codingKeywords.any (fun k => containsC k.data text) then
    score + 0.5
  else score

/-- The lexical candidates `keywordDocs` (README l.1174–1177). -/
noncomputable def keywordDocsOf (queryContentTokens : List String)
    (looksLikeCodingQuery : Bool) (docs : List Book) : List Scored :=
  docs.map (fun d => ⟨d, computeKeywordScore queryContentTokens looksLikeCodingQuery d⟩)

/-- The semantic candidates (README l.1109–1117): every fetched doc with a
cached embedding, scored by cosine similarity against the query embedding,
sorted descending and truncated to 20. -/
noncomputable def semanticDocsOf (queryEmb : List ℝ) (all : List Book) : List Scored :=
  (sortDescBy (fun s => s.score)
    ((all.filter (fun d => d.embedding.isSome)).map
      (fun d => ⟨d, cosineSimilarity queryEmb (d.embedding.getD [])⟩))).take 20

/-- The ranked, scored tail of the pipeline before docs are projected out:
fused values sorted descending by score.  (README l.1190–1192 sorts the
fused values and only then maps to `doc`.) -/
noncomputable def combinedScored (kwDocs semDocs : List Scored) : List Scored :=
  sortDescBy (fun s => s.score) ((fuseBest (kwDocs ++ semDocs)).map (fun p => p.2))

/-- Fusion, sorting, intent filtering and truncation (README l.1179–1200):
the returned doc list. -/
noncomputable def rankDocs (kwDocs semDocs : List Scored)
    (looksLikeDSAQuery looksLikeCodingQuery : Bool) : List Book :=
  let combined := (combinedScored kwDocs semDocs).map (fun s => s.doc)
  let combined :=
    if looksLikeDSAQuery then combined.filter isDSABook
    else if looksLikeCodingQuery then combined.filter isCodingBook
    else combined
  combined.take 5

/-- The scored counterpart of `rankDocs`: filtering and truncation applied
to the fused, sorted candidates *before* projecting out the docs.
`rankDocs` equals its doc-projection (filtering by a doc predicate commutes
with the projection), which exposes the fused score each returned doc is
ordered by. -/
noncomputable def rankedScored (kwDocs semDocs : List Scored)
    (looksLikeDSAQuery looksLikeCodingQuery : Bool) : List Scored :=
  (if looksLikeDSAQuery then
      (combinedScored kwDocs semDocs).filter (fun s => isDSABook s.doc)
    else if looksLikeCodingQuery then
      (combinedScored kwDocs semDocs).filter (fun s => isCodingBook s.doc)
    else combinedScored kwDocs semDocs).take 5

/-- The per-row `getDocument` loop (README l.1149–1155): rows with a falsy
id are skipped without a call; a thrown `getDocument` propagates to the
outer catch (`none`). -/
def fetchDocs (getDoc : String → Except Unit Book) :
    List String → List Book → List ExtCall → Option (List Book) × List ExtCall
  | [], acc, tr => (some acc, tr)
  | rid :: rest, acc, tr =>
    if rid = "" then fetchDocs getDoc rest acc tr
    else match getDoc rid with
      | .error _ => (none, tr ++ [ExtCall.storeGetDoc])
      | .ok d => fetchDocs getDoc rest (acc ++ [d]) (tr ++ [ExtCall.storeGetDoc])

/-- `searchBooks` (README l.1064–1205) with its trace of external calls.
Any error on the lexical path (search or per-row fetch) is swallowed by the
outer `catch` and turned into the empty result; a failed embedding call or
bulk fetch inside the semantic block only empties the semantic candidates.
`semFlag` is the `SEMANTIC_SEARCH` environment switch. -/
noncomputable def searchBooksT (vocab : List String)
    (autosyn : List (String × List String)) (semFlag : Bool) (store : Store)
    (userQuery : String) : List Book × List ExtCall :=
  let tokens := getExpandedTokens vocab autosyn userQuery
  if tokens = [] then ([], [])
  else
    let looksLikeCodingQuery := tokens.any (fun t => codingKeywords.contains t)
    let looksLikeDSAQuery :=
      tokens.any (fun t => dsaIndicators.contains t) || dsaRegexTest userQuery
    let semPair :=
      if semFlag then
        match store.queryEmbedding userQuery with
        | .error _ => (([] : List Scored), [ExtCall.embed])
        | .ok none => ([], [ExtCall.embed])
        | .ok (some queryEmb) =>
          match store.allDocs with
          | .error _ => ([], [ExtCall.embed, ExtCall.storeAllDocs])
          | .ok all => (semanticDocsOf queryEmb all, [ExtCall.embed, ExtCall.storeAllDocs])
      else ([], [])
    let semanticDocs := semPair.1
    let tr1 := semPair.2
    match store.searchRows (luceneQueryOf tokens) with
    | .error _ => ([], tr1 ++ [ExtCall.storeSearch])
    | .ok rows =>
      match fetchDocs store.getDoc rows [] [] with
      | (none, tr2) => ([], tr1 ++ [ExtCall.storeSearch] ++ tr2)
      | (some docs, tr2) =>
        let queryContentTokens :=
          tokens.filter (fun t => t.data.any Char.isAlpha && !ignoreTokens.contains t)
        let kwDocs := keywordDocsOf queryContentTokens looksLikeCodingQuery docs
        (rankDocs kwDocs semanticDocs looksLikeDSAQuery looksLikeCodingQuery,
         tr1 ++ [ExtCall.storeSearch] ++ tr2)

/-! ### Regex matchers of the `/ask-ai` route

The route classifies the lowercased trimmed query with a cascade of
regexes.  Each one is modelled by a recursive matcher over the character
list.  `scanB`/`scanO` walk the candidate start positions left to right,
carrying whether the previous character was a word character so that the
leading `\b` of each pattern is honoured; the matched patterns otherwise
consist of literals, `\s+`/`\s*` gaps, optional suffixes and final `\b`. -/

/-- A `\b` right after a match: end of input or a non-word character. -/
def boundaryAfter : List Char → Bool
  | [] => true
  | c :: _ => !isWordChar c

/-- Literal `pat` at the head followed by a closing `\b`. -/
def wordAt (pat : List Char) (l : List Char) : Bool :=
  beginsC pat l && boundaryAfter (l.drop pat.length)

/-- Boolean scan over start positions honouring a leading `\b`. -/
def scanB (f : List Char → Bool) : Bool → List Char → Bool
  | _, [] => false
  | prevW, c :: cs => (!prevW && f (c :: cs)) || scanB f (isWordChar c) cs

/-- Capturing scan over start positions honouring a leading `\b`
(leftmost match wins, as for `String.prototype.match`). -/
def scanO {α : Type} (f : List Char → Option α) : Bool → List Char → Option α
  | _, [] => none
  | prevW, c :: cs =>
    match (if prevW then none else f (c :: cs)) with
    | some x => some x
    | none => scanO f (isWordChar c) cs

/-- `/\bpat\b/.test(l)`; `pat` may contain literal spaces
(e.g. `final year`). -/
def containsWord (pat : String) (l : List Char) : Bool :=
  scanB (wordAt pat.data) false l

/-- Literal then continuation (boolean). -/
def litThenB (pat : List Char) (k : List Char → Bool) (l : List Char) : Bool :=
  beginsC pat l && k (l.drop pat.length)

/-- `\s*` then continuation: the continuation is tried after each amount of
skipped whitespace (none of the continuations can start with whitespace, so
this is exactly the regex's backtracking). -/
def wsStarThenB (k : List Char → Bool) : List Char → Bool
  | [] => k []
  | c :: cs => k (c :: cs) || (isWsChar c && wsStarThenB k cs)

/-- `\s+` then continuation. -/
def wsPlusThenB (k : List Char → Bool) : List Char → Bool
  | [] => false
  | c :: cs => isWsChar c && wsStarThenB k cs

/-- Literal then continuation (capturing). -/
def litThenO {α : Type} (pat : List Char) (k : List Char → Option α) (l : List Char) :
    Option α :=
  if beginsC pat l then k (l.drop pat.length) else none

/-- `\s*` then capturing continuation. -/
def wsStarThenO {α : Type} (k : List Char → Option α) : List Char → Option α
  | [] => k []
  | c :: cs =>
    match k (c :: cs) with
    | some x => some x
    | none => if isWsChar c then wsStarThenO k cs else none

/-- `\s+` then capturing continuation. -/
def wsPlusThenO {α : Type} (k : List Char → Option α) : List Char → Option α
  | [] => none
  | c :: cs => if isWsChar c then wsStarThenO k cs else none

/-- `diagram(s)?\b` at the head. -/
def diagramOptS (l : List Char) : Bool :=
  beginsC "diagram".data l &&
    ((beginsC "s".data (l.drop 7) && boundaryAfter (l.drop 8)) || boundaryAfter (l.drop 7))

/-- `with\s+diagrams?\b` at the head (first alternative of the diagram
hint regex). -/
def withDiagramsAt (l : List Char) : Bool :=
  litThenB "with".data (wsPlusThenB diagramOptS) l

/-- The intent-hint boost terms (README l.1238–1259), in source order.  The
`/i` regexes are evaluated against the lowercased query, where the
lowercase patterns below are equivalent. -/
def extraTermsOf (lowerQ : String) : List String :=
  let l := lowerQ.data
  let t1 := if containsWord "exam" l || containsWord "preparation" l || containsWord "prep" l
    then ["guide", "practice", "review"] else []
  let t2 := if containsWord "practice" l || containsWord "question" l ||
      containsWord "questions" l || containsWord "problem" l || containsWord "problems" l
    then ["practice", "problems", "questions"] else []
  let t3 := if containsWord "project" l || containsWord "projects" l ||
      containsWord "final year" l
    then ["project", "design", "applications"] else []
  let t4 := if scanB withDiagramsAt false l || containsWord "diagram" l ||
      containsWord "diagrams" l
    then ["diagram", "illustrated"] else []
  let t5 := if containsWord "simple" l || containsWord "easy" l ||
      containsWord "basic" l || containsWord "basics" l
    then ["introduction", "basic", "fundamentals"] else []
  let t6 := if containsWord "practical" l || containsWord "example" l ||
      containsWord "examples" l
    then ["examples", "applications", "hands-on"] else []
  let t7 := if containsWord "graphics" l then ["graphics", "visual"] else []
  t1 ++ t2 ++ t3 ++ t4 ++ t5 ++ t6 ++ t7

/-- The greedy `(.+)` capture closing several patterns: the whole non-empty
remainder. -/
def restCapture (r : List Char) : Option (List Char) :=
  if r = [] then none else some r

/-- `(?:of|for)\s+(.+)` at the head. -/
def ofForRest (r : List Char) : Option (List Char) :=
  match litThenO "of".data (wsPlusThenO restCapture) r with
  | some x => some x
  | none => litThenO "for".data (wsPlusThenO restCapture) r

/-- `how\s+many\s+copies\s+(?:of|for)\s+(.+)` at the head
(README l.1262). -/
def copiesOfAt (l : List Char) : Option (List Char) :=
  litThenO "how".data (wsPlusThenO (litThenO "many".data (wsPlusThenO
    (litThenO "copies".data (wsPlusThenO ofForRest))))) l

/-- The filler phrases stripped from the copies-of subject
(README l.1266). -/
def phraseList : List (List Char) :=
  ["do you have".data, "available".data, "in stock".data, "right now".data,
   "are there".data]

/-- The length of the first filler phrase matching at the head, with its
closing `\b`. -/
def firstPhraseLen (l : List Char) : Option Nat :=
  (phraseList.find? (fun p => beginsC p l && boundaryAfter (l.drop p.length))).map
    List.length

/-- One pass of the global replace
`.replace(/\b(do you have|available|in stock|right now|are there)\b/gi, "")`:
drop every boundary-delimited filler phrase, scanning left to right and
resuming right after each removed phrase (whose last character is a word
character, hence `prevW := true`). -/
def removePhrasesGo : Bool → List Char → List Char
  | _, [] => []
  | prevW, c :: cs =>
    match hm : (if prevW then none else firstPhraseLen (c :: cs)) with
    | some n => removePhrasesGo true (cs.drop (n - 1))
    | none => c :: removePhrasesGo (isWordChar c) cs
termination_by _ l => l.length
decreasing_by
  all_goals simp_wf
  all_goals omega

/-- The filler-phrase replace on a character list. -/
def removePhrases (l : List Char) : List Char := removePhrasesGo false l

/-- `.replace(/[?!.]+$/g, "")`: strip one trailing run of `?`, `!`, `.`. -/
def stripTrailPunct (l : List Char) : List Char :=
  (l.reverse.dropWhile (fun c => c = '?' || c = '!' || c = '.')).reverse

/-- The cleaned copies-of subject: capture trimmed, filler phrases removed,
trailing punctuation stripped, trimmed again (README l.1264–1268). -/
def cleanSubject (cap : List Char) : String :=
  String.mk (trimC (stripTrailPunct (removePhrases (trimC cap))))

/-- The copies-of intent: leftmost match of the pattern over the lowercased
query, with the cleaned subject. -/
def copiesSubject (lowerQ : String) : Option String :=
  (scanO copiesOfAt false lowerQ.data).map cleanSubject

/-- `available\b` at the head. -/
def availTail (r : List Char) : Bool :=
  beginsC "available".data r && boundaryAfter (r.drop 9)

/-- The lazy `(.+?)\s+available\b`: grow the middle one character at a time
and stop as soon as `\s+available\b` follows.  Relative to the regex
engine's answer the capture can only differ by leading whitespace absorbed
differently between `\s+` and `(.+?)`, which the `.trim()` the route
applies to every capture erases. -/
def midLazy : List Char → List Char → Option (List Char)
  | _, [] => none
  | acc, c :: cs =>
    if wsPlusThenB availTail cs then some (c :: acc).reverse
    else midLazy (c :: acc) cs

/-- `(?:is|are)\s+(.+?)\s+available\b` at the head. -/
def isAreAlt (l : List Char) : Option (List Char) :=
  match litThenO "is".data (wsPlusThenO (midLazy [])) l with
  | some x => some x
  | none => litThenO "are".data (wsPlusThenO (midLazy [])) l

/-- `availability\s+of\s+(.+)` at the head. -/
def availabilityOfAlt (l : List Char) : Option (List Char) :=
  litThenO "availability".data (wsPlusThenO (litThenO "of".data
    (wsPlusThenO restCapture))) l

/-- The availability regex (README l.1286): first alternative preferred at
each position, leftmost position wins; the route then keeps the trimmed
capture only when it is non-empty. -/
def availSubject (lowerQ : String) : Option String :=
  match scanO (fun l =>
      match isAreAlt l with
      | some x => some x
      | none => availabilityOfAlt l) false lowerQ.data with
  | some cap =>
    let s := String.mk (trimC cap)
    if s = "" then none else some s
  | none => none

/-- `(books|titles|items)\b` at the head. -/
def booksTitlesItems (l : List Char) : Bool :=
  wordAt "books".data l || wordAt "titles".data l || wordAt "items".data l

/-- `/\bhow\s+many\s+(?:total\s+)?(books|titles|items)\b|\btotal\s+(books|titles|items)\b/`
(README l.1307). -/
def totalCountB (lowerQ : String) : Bool :=
  scanB (litThenB "how".data (wsPlusThenB (litThenB "many".data (wsPlusThenB
    (fun r => litThenB "total".data (wsPlusThenB booksTitlesItems) r ||
      booksTitlesItems r))))) false lowerQ.data ||
  scanB (litThenB "total".data (wsPlusThenB booksTitlesItems)) false lowerQ.data

/-- `/\bhow\s+many\s+available\s+(books|titles|items)\b/` (README l.1308). -/
def availableCountB (lowerQ : String) : Bool :=
  scanB (litThenB "how".data (wsPlusThenB (litThenB "many".data (wsPlusThenB
    (litThenB "available".data (wsPlusThenB booksTitlesItems)))))) false lowerQ.data

/-- `/\bhow\s+many\s+copies\b|\btotal\s+copies\b/` (README l.1309). -/
def copiesStatB (lowerQ : String) : Bool :=
  scanB (litThenB "how".data (wsPlusThenB (litThenB "many".data (wsPlusThenB
    (wordAt "copies".data))))) false lowerQ.data ||
  scanB (litThenB "total".data (wsPlusThenB (wordAt "copies".data))) false lowerQ.data

/-- The `[a-z0-9+#+-]` topic character class. -/
def isTopicChar (c : Char) : Bool :=
  ('a' ≤ c && c ≤ 'z') || c.isDigit || c = '+' || c = '#' || c = '-'

/-- `books?\b` at the head. -/
def bookOptS (r : List Char) : Bool :=
  beginsC "book".data r &&
    ((beginsC "s".data (r.drop 4) && boundaryAfter (r.drop 5)) || boundaryAfter (r.drop 4))

/-- `how\s+many\s+([a-z0-9+#+-]+)\s+books?\b` at the head (README l.1310).
The captured run is maximal: the class excludes whitespace, so no shorter
run can be followed by `\s+`. -/
def topicCountAt (l : List Char) : Option String :=
  litThenO "how".data (wsPlusThenO (litThenO "many".data (wsPlusThenO
    (fun r =>
      let run := r.takeWhile isTopicChar
      if run = [] then none
      else if wsPlusThenB bookOptS (r.drop run.length) then some (String.mk run)
      else none)))) l

/-- The topic-count match after the route's two nullings: captures `total`
and `all` are discarded, and any match is discarded when the total-count
regex also fired (README l.1310–1316). -/
def topicCountOf (lowerQ : String) (totalB : Bool) : Option String :=
  match scanO topicCountAt false lowerQ.data with
  | some tp => if tp = "total" ∨ tp = "all" then none else if totalB then none else some tp
  | none => none

/-- `page(s)?\b` at the head. -/
def pageOptS (r : List Char) : Bool :=
  beginsC "page".data r &&
    ((beginsC "s".data (r.drop 4) && boundaryAfter (r.drop 5)) || boundaryAfter (r.drop 4))

/-- Digit-list to number. -/
def digitsToNat (run : List Char) : Nat :=
  run.foldl (fun n c => n * 10 + (c.toNat - '0'.toNat)) 0

/-- `(\d{2,4})\s*pages?\b` at the head: a maximal digit run of length 2–4
(a longer run cannot match, since every shortened run is followed by a
digit where `\s*page` must start). -/
def pagesNumAt (r : List Char) : Option Nat :=
  let run := r.takeWhile Char.isDigit
  if 2 ≤ run.length ∧ run.length ≤ 4 ∧ wsStarThenB pageOptS (r.drop run.length) then
    some (digitsToNat run)
  else none

/-- `(?:under|below|less\s+than|upto|up\s+to)\s+(\d{2,4})\s*pages?\b` at
the head (README l.1395), alternatives in source order. -/
def pageLimitAt (l : List Char) : Option Nat :=
  match litThenO "under".data (wsPlusThenO pagesNumAt) l with
  | some x => some x
  | none =>
  match litThenO "below".data (wsPlusThenO pagesNumAt) l with
  | some x => some x
  | none =>
  match litThenO "less".data (wsPlusThenO (litThenO "than".data
      (wsPlusThenO pagesNumAt))) l with
  | some x => some x
  | none =>
  match litThenO "upto".data (wsPlusThenO pagesNumAt) l with
  | some x => some x
  | none => litThenO "up".data (wsPlusThenO (litThenO "to".data
      (wsPlusThenO pagesNumAt))) l

/-- `BOOK_QUERY_KEYWORDS` (README l.1405–1422). -/
def bookQueryKeywords : List String :=
  ["book", "books", "read", "find", "author", "title", "have", "available",
   "inventory", "copy", "copies", "where", "which", "what", "do you have", "search"]

/-! ### The `/ask-ai` route (README l.1226–1594) -/

/-- The JSON response shape the route produces.  Error responses
(400/500) carry their message in `error`; success responses carry
`resultsFound` and `reply`. -/
structure AskResp where
  status : Nat
  ok : Bool
  resultsFound : Nat
  reply : String
  error : Option String
  deriving DecidableEq, Repr

/-- The collaborators of the route: IAM authentication, the store, and the
text-generation renderer (which receives the final book list and the raw
query; prompt assembly and output scrubbing are folded into this
collaborator boundary). -/
structure AskEnv where
  auth : Except Unit String
  store : Store
  render : List Book → String → Except Unit String

/-- The 400 response for a missing/empty query. -/
def resp400 : AskResp := ⟨400, false, 0, "", some "Missing or invalid query text"⟩

/-- The 500 response of the stats branch's own catch. -/
def respStats500 : AskResp := ⟨500, false, 0, "", some "Failed to fetch inventory stats"⟩

/-- The 500 response of the route's outer catch. -/
def resp500 : AskResp := ⟨500, false, 0, "", some "AI generation failed or search failed"⟩

/-- The fixed redirect reply for non-catalog queries (README l.1433). -/
def redirectReply : String :=
  "Hi! If you’re looking for books or need help finding something in the library, just ask me about specific topics, titles, or authors 😊"

/-- The copies-of-subject branch (README l.1262–1283). -/
noncomputable def copiesBranch (vocab : List String)
    (autosyn : List (String × List String)) (semFlag : Bool) (store : Store)
    (subject : String) : AskResp × List ExtCall :=
  let r := searchBooksT vocab autosyn semFlag store subject
  let books := r.1
  let totalCopies := books.foldl (fun s b => s + b.copies.getD 0) 0
  (⟨200, true, books.length,
    if books.length ≠ 0 then
      "Found " ++ toString books.length ++ " matching book(s) for \"" ++ subject ++
        "\" with a total of " ++ toString totalCopies ++ " copies."
    else "No matching books found for \"" ++ subject ++ "\".", none⟩, r.2)

/-- The availability-of-subject branch (README l.1286–1304). -/
noncomputable def availBranch (vocab : List String)
    (autosyn : List (String × List String)) (semFlag : Bool) (store : Store)
    (subject : String) : AskResp × List ExtCall :=
  let r := searchBooksT vocab autosyn semFlag store subject
  let books := r.1
  let availableBooks := books.filter (fun b => b.available)
  let totalCopies := books.foldl (fun s b => s + b.copies.getD 0) 0
  let availableCopies := availableBooks.foldl (fun s b => s + b.copies.getD 0) 0
  (⟨200, true, books.length,
    if books.length ≠ 0 then
      "Found " ++ toString books.length ++ " matching book(s). Available copies: " ++
        toString availableCopies ++ " (total copies: " ++ toString totalCopies ++ ")."
    else "No matching books found for \"" ++ subject ++ "\".", none⟩, r.2)

/-- The inventory-stats branch (README l.1318–1392).  It always reaches the
`postAllDocs` bulk fetch (the `getDatabaseInformation` else-branch is dead
code: the outer guard implies the inner condition); a thrown bulk fetch is
caught and surfaced as a 500. -/
noncomputable def statsBranch (vocab : List String)
    (autosyn : List (String × List String)) (store : Store)
    (topicM : Option String) (availableB copiesB : Bool) : AskResp × List ExtCall :=
  match store.allDocs with
  | .error _ => (respStats500, [ExtCall.storeAllDocs])
  | .ok docs =>
    let total := docs.length
    if availableB || copiesB || topicM.isSome then
      let availableCount := (docs.filter (fun d => d.available)).length
      let totalCopies := docs.foldl (fun s d => s + d.copies.getD 0) 0
      match topicM with
      | some topic =>
        let aliases := getExpandedTokens vocab autosyn topic
        let aliases := if aliases = [] then [String.mk (lowerC topic.data)] else aliases
        let count := (docs.filter (fun d =>
          aliases.any (fun t => containsC t.data (lowerC d.title.data) ||
            containsC t.data (lowerC d.author.data)))).length
        (⟨200, true, 0,
          "There are " ++ toString count ++ " " ++ topic ++ " books in the inventory.",
          none⟩, [ExtCall.storeAllDocs])
      | none =>
        if availableB then
          (⟨200, true, 0,
            "There are " ++ toString availableCount ++ " available books in the inventory.",
            none⟩, [ExtCall.storeAllDocs])
        else
          (⟨200, true, 0,
            "There are " ++ toString totalCopies ++ " total copies in the inventory.",
            none⟩, [ExtCall.storeAllDocs])
    else
      (⟨200, true, 0,
        "There are " ++ toString total ++ " books in the library inventory.",
        none⟩, [ExtCall.storeAllDocs])

/-- Deduplication of the final list by normalized `(title, author)`, also
dropping empty titles (README l.1460–1471). -/
def dedupBooks (books : List Book) : List Book :=
  (books.foldl (fun (st : List Book × List String) b =>
    let title := String.mk (lowerC (trimC b.title.data))
    let author := String.mk (lowerC (trimC b.author.data))
    let key := title ++ "||" ++ author
    if title = "" then st
    else if key ∈ st.2 then st
    else (st.1 ++ [b], st.2 ++ [key])) ([], [])).1

/-- The retrieval tail of the route (README l.1443–1582): expanded search
query, hybrid search, page filter, dedup, render.  The renderer's output is
trimmed and replaced by the fixed fallback when shorter than three
characters (README l.1570–1573); its regex scrubbing is part of the render
collaborator. -/
noncomputable def retrievalBranch (vocab : List String)
    (autosyn : List (String × List String)) (semFlag : Bool) (env : AskEnv)
    (query trimmed : String) (extraTerms : List String) (pageLimit : Option Nat) :
    AskResp × List ExtCall :=
  let searchQuery :=
    if extraTerms ≠ [] then
      String.mk (trimC (trimmed ++ " " ++ String.intercalate " " extraTerms).data)
    else trimmed
  let r := searchBooksT vocab autosyn semFlag env.store searchQuery
  let books0 := r.1
  let books1 := match pageLimit with
    | some n =>
      if n ≠ 0 then
        books0.filter (fun b => match b.max_pages with
          | some m => decide (m ≤ (n : Int))
          | none => false)
      else books0
    | none => books0
  let books := dedupBooks books1
  let resultsFound := books.length
  match env.render books query with
  | .error _ => (resp500, r.2 ++ [ExtCall.render])
  | .ok raw =>
    let fr := String.mk (trimC raw.data)
    let reply := if fr.data.length < 3 then "Not available in the library inventory."
      else fr
    (⟨200, true, resultsFound, reply, none⟩, r.2 ++ [ExtCall.render])

/-- The `/ask-ai` route (README l.1226–1594), with the trace of external
calls it makes.  Branch order as in the source: input validation, the
copies-of intent, the availability intent, the inventory-stats intents,
then the IAM token fetch, the catalog-keyword check short-circuiting casual
queries, and finally the retrieval pipeline plus renderer. -/
noncomputable def askAi (vocab : List String)
    (autosyn : List (String × List String)) (semFlag : Bool) (env : AskEnv)
    (query : String) : AskResp × List ExtCall :=
  if (trimC query.data).length = 0 then (resp400, [])
  else
    let trimmed := String.mk (trimC query.data)
    let lowerQ := String.mk (lowerC trimmed.data)
    let extraTerms := extraTermsOf lowerQ
    match copiesSubject lowerQ with
    | some subject => copiesBranch vocab autosyn semFlag env.store subject
    | none =>
    match availSubject lowerQ with
    | some subject => availBranch vocab autosyn semFlag env.store subject
    | none =>
      let totalB := totalCountB lowerQ
      let availableB := availableCountB lowerQ
      let copiesB := copiesStatB lowerQ
      let topicM := topicCountOf lowerQ totalB
      if totalB || availableB || copiesB || topicM.isSome then
        statsBranch vocab autosyn env.store topicM availableB copiesB
      else
        let pageLimit := scanO pageLimitAt false lowerQ.data
        match env.auth with
        | .error _ => (resp500, [ExtCall.auth])
        | .ok tok =>
          if tok = "" then (resp500, [ExtCall.auth])
          else
            let lowerQuery := String.mk (trimC (lowerC trimmed.data))
            if !(bookQueryKeywords.any (fun k => containsC k.data lowerQuery.data)) then
              (⟨200, true, 0, redirectReply, none⟩, [ExtCall.auth])
            else
              let r := retrievalBranch vocab autosyn semFlag env query trimmed
                extraTerms pageLimit
              (r.1, ExtCall.auth :: r.2)

/-! ### Membership lemmas for the token-set folds -/

theorem mem_setAdd_of_mem {l : List String} {x y : String} (h : x ∈ l) :
    x ∈ setAdd l y := by
  unfold setAdd
  split
  · exact h
  · exact List.mem_append_left _ h

theorem self_mem_setAdd (l : List String) (y : String) : y ∈ setAdd l y := by
  unfold setAdd
  split
  · assumption
  · exact List.mem_append_right _ (List.mem_singleton.mpr rfl)

theorem mem_foldl_of_step {α : Type} (step : List String → α → List String)
    (hstep : ∀ acc t x, x ∈ acc → x ∈ step acc t) :
    ∀ (l : List α) (acc : List String) (x : String), x ∈ acc → x ∈ l.foldl step acc := by
  intro l
  induction l with
  | nil => intro acc x h; simpa using h
  | cons t ts ih =>
    intro acc x h
    exact ih (step acc t) x (hstep acc t x h)

theorem mem_foldl_setAdd_of_mem {l : List String} {acc : List String} {x : String}
    (h : x ∈ acc) : x ∈ l.foldl setAdd acc :=
  mem_foldl_of_step setAdd (fun _ _ _ hx => mem_setAdd_of_mem hx) l acc x h

theorem mem_foldl_setAdd_self {l : List String} {acc : List String} {x : String}
    (h : x ∈ l) : x ∈ l.foldl setAdd acc := by
  induction l generalizing acc with
  | nil => cases h
  | cons t ts ih =>
    simp only [List.foldl_cons]
    rcases List.mem_cons.mp h with rfl | hx
    · exact mem_foldl_setAdd_of_mem (self_mem_setAdd acc _)
    · exact ih hx

theorem mem_addIfInVocab_of_mem {vocab : List String} {w : String}
    {acc : List String} {x : String} (h : x ∈ acc) : x ∈ addIfInVocab vocab w acc := by
  unfold addIfInVocab
  split
  · exact mem_setAdd_of_mem h
  · exact h

theorem mem_ite_addIfInVocab {vocab : List String} {x : String} (c : Prop)
    [Decidable c] (w : String) (m : List String) (h : x ∈ m) :
    x ∈ (if c then addIfInVocab vocab w m else m) := by
  split
  · exact mem_addIfInVocab_of_mem h
  · exact h

theorem mem_ite_addIfInVocab2 {vocab : List String} {x : String} (c : Prop)
    [Decidable c] (w1 w2 : String) (m : List String) (h : x ∈ m) :
    x ∈ (if c then addIfInVocab vocab w2 (addIfInVocab vocab w1 m) else m) := by
  split
  · exact mem_addIfInVocab_of_mem (mem_addIfInVocab_of_mem h)
  · exact h

theorem mem_morphAdd_of_mem {vocab : List String} {t : String} {acc : List String}
    {x : String} (h : x ∈ acc) : x ∈ morphAdd vocab t acc := by
  simp only [morphAdd]
  exact mem_ite_addIfInVocab _ _ _ (mem_ite_addIfInVocab _ _ _
    (mem_ite_addIfInVocab _ _ _ (mem_ite_addIfInVocab2 _ _ _ _
      (mem_ite_addIfInVocab _ _ _ (mem_ite_addIfInVocab _ _ _
        (mem_ite_addIfInVocab _ _ _ h))))))

/-- The per-raw-token synonym-expansion step of `getExpandedTokens` only
adds tokens. -/
theorem mem_synStep_of_mem (autosyn : List (String × List String))
    (acc : List String) (t x : String) (h : x ∈ acc) :
    x ∈ (let acc1 := match SYNONYM_MAP.lookup t with
        | some extras => extras.foldl setAdd acc
        | none => acc
      match autosyn.lookup t with
        | some auto => auto.foldl setAdd acc1
        | none => acc1) := by
  have h1 : x ∈ (match SYNONYM_MAP.lookup t with
      | some extras => extras.foldl setAdd acc
      | none => acc) := by
    rcases SYNONYM_MAP.lookup t with _ | extras
    · exact h
    · exact mem_foldl_setAdd_of_mem h
  rcases autosyn.lookup t with _ | auto
  · exact h1
  · exact mem_foldl_setAdd_of_mem h1

/-! ### Tokenization lemmas -/

theorem splitChunks_no_sep {p : Char → Bool} :
    ∀ (l acc : List Char), (∀ c ∈ l, p c = false) →
      splitChunks p acc l = [acc.reverse ++ l] := by
  intro l
  induction l with
  | nil => intro acc _; simp [splitChunks]
  | cons c cs ih =>
    intro acc h
    have hc : p c = false := h c (List.mem_cons_self c cs)
    simp only [splitChunks, hc, Bool.false_eq_true, if_false]
    rw [ih (c :: acc) (fun d hd => h d (List.mem_cons_of_mem c hd))]
    simp

/-- A lowercase all-word-character token longer than two characters that is
not a stop word tokenizes to exactly itself. -/
theorem rawContentTokens_single (t : String)
    (hword : ∀ c ∈ t.data, isWordChar c = true ∧ Char.toLower c = c)
    (hlen : 2 < t.data.length) (hstop : t ∉ stopWords) :
    rawContentTokens t = [t] := by
  have hmap : lowerC t.data = t.data := by
    unfold lowerC
    rw [List.map_congr_left (fun c hc => (hword c hc).2)]
    exact List.map_id' t.data
  have hdne : t.data ≠ [] := by
    intro hd
    rw [hd] at hlen
    simp at hlen
  have hne : (t == "") = false := by
    rw [beq_eq_false_iff_ne]
    intro he
    exact hdne (by rw [he])
  have hlen' : decide (2 < t.data.length) = true := decide_eq_true hlen
  have hstop' : decide (t ∈ stopWords) = false := decide_eq_false hstop
  have hlen2 : decide (2 < t.length) = true := decide_eq_true hlen
  unfold rawContentTokens chunkStrings
  rw [hmap, splitChunks_no_sep t.data []
    (by intro c hc; simp [(hword c hc).1])]
  simp only [List.reverse_nil, List.nil_append, List.map_cons, List.map_nil]
  have hmk : String.mk t.data = t := rfl
  rw [hmk]
  simp [List.filter, hne, hlen', hstop', hlen2]

/-! ### Claim C10 — expansion only ever adds tokens -/

/-- Claim C10.  For every input text, the token set returned by
`getExpandedTokens` is a superset of the raw content tokens (the lowercased
tokens surviving the length-greater-than-2 and stop-word filters): synonym
expansion and morphological augmentation only add tokens, never remove
one.  This holds for every title vocabulary and auto-synonym state. -/
theorem claim_C10_thm (vocab : List String) (autosyn : List (String × List String))
    (text : String) :
    ∀ w ∈ rawContentTokens text, w ∈ getExpandedTokens vocab autosyn text := by
  intro w hw
  have hne : rawContentTokens text ≠ [] := List.ne_nil_of_mem hw
  unfold getExpandedTokens
  rw [if_neg hne]
  apply mem_foldl_of_step _ (fun acc t x h => mem_morphAdd_of_mem h)
  apply mem_foldl_of_step _ (fun acc t x h => mem_synStep_of_mem autosyn acc t x h)
  exact mem_foldl_setAdd_self hw

/-- Witness for C10 at the concrete text `"algebra maths"`. -/
theorem claim_C10_witness :
    "algebra" ∈ rawContentTokens "algebra maths" ∧
      "algebra" ∈ getExpandedTokens [] [] "algebra maths" :=
  ⟨by decide, claim_C10_thm [] [] "algebra maths" "algebra" (by decide)⟩

/-! ### Claim C1 — curated synonyms appear in the expansion

The claim as stated fails: `SYNONYM_MAP` has keys that do not survive the
expander's own tokenization (length-≤-2 keys such as `go`, `ai`, `db`, and
keys with non-word characters such as `c++` or `data-structures`), and for
those `getExpandedTokens` returns `[]` — no listed synonym appears.  For
every key that does survive tokenization as a single raw token, the full
synonym list is included. -/

/-- Counterexample to C1 as stated: `"go"` is a key of the curated table,
yet expanding the text `"go"` yields the empty set (the token is dropped by
the length-greater-than-2 filter before the synonym table is consulted), so
its listed synonym `"golang"` does not appear. -/
theorem claim_C1_counterexample :
    SYNONYM_MAP.lookup "go" = some ["golang", "programming", "coding", "software"] ∧
      getExpandedTokens [] [] "go" = [] ∧
      "golang" ∉ getExpandedTokens [] [] "go" :=
  ⟨by decide, by decide, by decide⟩

/-- Claim C1 (amended).  For every key of the curated synonym table that
survives the expander's tokenization as a single raw token — all characters
word characters and lowercase, length greater than two, not a stop word —
and for every synonym listed under that key, expanding a text consisting of
that key yields a set containing every listed synonym, whatever the title
vocabulary and auto-synonym state. -/
theorem claim_C1_amended_thm (vocab : List String)
    (autosyn : List (String × List String)) (t : String) (syns : List String)
    (hkey : SYNONYM_MAP.lookup t = some syns)
    (hword : ∀ c ∈ t.data, isWordChar c = true ∧ Char.toLower c = c)
    (hlen : 2 < t.data.length) (hstop : t ∉ stopWords) :
    ∀ s ∈ syns, s ∈ getExpandedTokens vocab autosyn t := by
  intro s hs
  have hraw : rawContentTokens t = [t] :=
    rawContentTokens_single t hword hlen hstop
  unfold getExpandedTokens
  rw [hraw, if_neg (by simp : ¬ ([t] : List String) = [])]
  apply mem_foldl_of_step _ (fun acc t x h => mem_morphAdd_of_mem h)
  simp only [List.foldl_cons, List.foldl_nil, hkey]
  have h1 : s ∈ syns.foldl setAdd (setAdd [] t) := mem_foldl_setAdd_self hs
  rcases hau : autosyn.lookup t with _ | auto
  · exact h1
  · exact mem_foldl_setAdd_of_mem h1

/-- Witness for the amended C1 at the key `"maths"`. -/
theorem claim_C1_witness :
    SYNONYM_MAP.lookup "maths" = some ["math", "mathematics"] ∧
      "mathematics" ∈ getExpandedTokens [] [] "maths" :=
  ⟨by decide,
   claim_C1_amended_thm [] [] "maths" ["math", "mathematics"] (by decide)
     (by decide) (by decide) (by decide) "mathematics" (by decide)⟩

/-! ### Claim C7 — stop-word-only input -/

/-- Claim C7.  For every raw input whose `\W+`-split tokens are all stop
words or of length at most two, the token expander returns the empty set,
and `searchBooks` on such input returns an empty result having issued no
store (or any other collaborator) call at all — its trace is empty. -/
theorem claim_C7_thm (vocab : List String) (autosyn : List (String × List String))
    (text : String)
    (h : ∀ w ∈ chunkStrings text, w.data.length ≤ 2 ∨ w ∈ stopWords) :
    getExpandedTokens vocab autosyn text = [] ∧
      ∀ (semFlag : Bool) (store : Store),
        searchBooksT vocab autosyn semFlag store text = ([], []) := by
  have hraw : rawContentTokens text = [] := by
    unfold rawContentTokens
    rw [List.filter_eq_nil_iff]
    intro w hw
    rcases h w hw with hlen | hstop
    · intro hc
      rw [Bool.and_eq_true, Bool.and_eq_true] at hc
      have h2 : (2:Nat) < w.data.length := by
        have := hc.1.2
        rwa [decide_eq_true_eq] at this
      omega
    · intro hc
      rw [Bool.and_eq_true] at hc
      have h3 := hc.2
      rw [Bool.not_eq_true'] at h3
      exact absurd (List.elem_iff.mpr hstop)
        (by rw [show List.elem w stopWords = false from h3]; simp)
  have hexp : getExpandedTokens vocab autosyn text = [] := by
    unfold getExpandedTokens
    rw [hraw]
    simp
  refine ⟨hexp, fun semFlag store => ?_⟩
  unfold searchBooksT
  rw [hexp]
  simp

/-- Witness for C7 at the stop-word-only text `"do you have any books"`
(an arbitrary concrete store is never consulted). -/
theorem claim_C7_witness :
    (∀ w ∈ chunkStrings "do you have any books",
        w.data.length ≤ 2 ∨ w ∈ stopWords) ∧
      getExpandedTokens [] [] "do you have any books" = [] :=
  ⟨by decide, (claim_C7_thm [] [] "do you have any books" (by decide)).1⟩

/-! ### Claim C2 — store failures during retrieval

The claim as stated fails: `searchBooks` wraps the lexical search and the
per-row fetches in a `try/catch` that logs and returns `[]`
(README l.1201–1204), which is exactly the observable outcome of a
successful search with zero hits.  The part of the claim that does hold in
the route is the aggregate/stats branch, whose own catch surfaces a failed
bulk fetch as an HTTP 500. -/

/-- Counterexample to C2 as stated: a store whose lexical search throws and
a store whose lexical search succeeds with zero rows give `searchBooks`
results that are equal (`[]`), so the caller cannot distinguish the store
failure from the valid zero-items outcome. -/
theorem claim_C2_counterexample :
    (searchBooksT [] [] false
      ⟨fun _ => .error (), .error (), fun _ => .error (), fun _ => .error ()⟩
      "database").1 = [] ∧
    (searchBooksT [] [] false
      ⟨fun _ => .error (), .ok [], fun _ => .ok [], fun _ => .error ()⟩
      "database").1 = [] := by
  constructor <;> rfl

/-- Claim C2 (amended).  When the store's lexical full-text search fails,
`searchBooks` catches the error and returns the empty list — the same
result a store returning zero rows (with semantic search off) produces, so
a retrieval store failure is not surfaced to the caller.  Only the
aggregate/stats branch of `/ask-ai` surfaces its bulk-fetch failure, as the
dedicated 500 response. -/
theorem claim_C2_amended_thm :
    (∀ (vocab : List String) (autosyn : List (String × List String))
        (semFlag : Bool) (store : Store) (q : String),
      (∀ s, store.searchRows s = .error ()) →
        (searchBooksT vocab autosyn semFlag store q).1 = []) ∧
    (∀ (vocab : List String) (autosyn : List (String × List String))
        (store : Store) (q : String),
      (∀ s, store.searchRows s = .ok []) →
        (searchBooksT vocab autosyn false store q).1 = []) ∧
    (∀ (vocab : List String) (autosyn : List (String × List String))
        (store : Store) (topicM : Option String) (availableB copiesB : Bool),
      store.allDocs = .error () →
        statsBranch vocab autosyn store topicM availableB copiesB =
          (respStats500, [ExtCall.storeAllDocs])) := by
  refine ⟨fun vocab autosyn semFlag store q hs => ?_,
    fun vocab autosyn store q hs => ?_,
    fun vocab autosyn store topicM availableB copiesB h => ?_⟩
  · unfold searchBooksT
    by_cases h : getExpandedTokens vocab autosyn q = []
    · rw [h]
      simp
    · rw [if_neg h]
      simp only [hs]
  · unfold searchBooksT
    by_cases h : getExpandedTokens vocab autosyn q = []
    · rw [h]
      simp
    · rw [if_neg h]
      simp only [hs, fetchDocs, Bool.false_eq_true, if_false]
      simp only [rankDocs, combinedScored, keywordDocsOf, fuseBest, sortDescBy,
        List.map_nil, List.foldl_nil, List.foldr_nil, List.append_nil,
        List.filter_nil]
      split <;> simp
  · unfold statsBranch
    rw [h]

/-- Witness for the amended C2: a store whose lexical search always throws
yields `[]` for the query `"database"`, and a stats request over a store
whose bulk fetch throws yields the 500 stats response. -/
theorem claim_C2_witness :
    (searchBooksT [] [] true
      ⟨fun _ => .error (), .error (), fun _ => .error (), fun _ => .error ()⟩
      "database").1 = [] ∧
    statsBranch [] []
      ⟨fun _ => .error (), .error (), fun _ => .error (), fun _ => .error ()⟩
      none false true = (respStats500, [ExtCall.storeAllDocs]) :=
  ⟨claim_C2_amended_thm.1 [] [] true _ "database" (fun _ => rfl),
   claim_C2_amended_thm.2.2 [] [] _ none false true rfl⟩

/-! ### Claim C3 — no-catalog-keyword short-circuit

The claim as stated fails: the route fetches an IAM token
(`getAccessToken`, an external authentication call) *before* the catalog
keyword check (README l.1400 versus l.1428), so handling `"hi"` performs
one collaborator call.  The rest of the claim holds: for queries matching
none of the earlier intent patterns and containing no catalog keyword, the
route replies with the fixed redirect message and `resultsFound 0`, and no
store, embedding or renderer call is made. -/

/-- Counterexample to C3 as stated: handling `"hi"` produces the redirect
reply, but the collaborator-call trace is `[auth]`, not empty — an
authentication call is made before the keyword check. -/
theorem claim_C3_counterexample :
    askAi [] [] true
      ⟨.ok "tok",
       ⟨fun _ => .error (), .error (), fun _ => .error (), fun _ => .error ()⟩,
       fun _ _ => .error ()⟩ "hi"
      = (⟨200, true, 0, redirectReply, none⟩, [ExtCall.auth]) ∧
    ([ExtCall.auth] : List ExtCall) ≠ [] := by
  constructor
  · rfl
  · simp

/-- Claim C3 (amended).  For every non-empty query matching none of the
copies-of/availability/stats patterns, with a successful non-empty IAM
token, in which no catalog keyword occurs: the route short-circuits with
the fixed redirect reply and `resultsFound 0`, and its only collaborator
call is the authentication call — no store, embedding or renderer call is
made. -/
theorem claim_C3_amended_thm (vocab : List String)
    (autosyn : List (String × List String)) (semFlag : Bool) (env : AskEnv)
    (q : String) (lq : String) (tok : String)
    (hne : (trimC q.data).length ≠ 0)
    (hlq : lq = String.mk (lowerC (trimC q.data)))
    (hcop : copiesSubject lq = none)
    (hav : availSubject lq = none)
    (htot : totalCountB lq = false)
    (havl : availableCountB lq = false)
    (hcopst : copiesStatB lq = false)
    (htop : topicCountOf lq false = none)
    (hauth : env.auth = .ok tok)
    (htok : tok ≠ "")
    (hkw : bookQueryKeywords.any
      (fun k => containsC k.data (trimC (lowerC (trimC q.data)))) = false) :
    askAi vocab autosyn semFlag env q =
      (⟨200, true, 0, redirectReply, none⟩, [ExtCall.auth]) := by
  subst hlq
  unfold askAi
  rw [if_neg hne]
  simp only [hcop, hav, htot, havl, hcopst, htop, hauth, Option.isSome_none,
    Bool.or_self, Bool.or_false, Bool.false_or, if_false, Bool.false_eq_true]
  rw [if_neg htok]
  simp only [hkw, Bool.not_false, if_true]

/-- Witness for the amended C3 at the query `"hi"`. -/
theorem claim_C3_witness :
    askAi [] [] false
      ⟨.ok "token2",
       ⟨fun _ => .error (), .error (), fun _ => .error (), fun _ => .error ()⟩,
       fun _ _ => .error ()⟩ "hi"
      = (⟨200, true, 0, redirectReply, none⟩, [ExtCall.auth]) :=
  claim_C3_amended_thm [] [] false _ "hi" "hi" "token2"
    (by decide) (by rfl) (by rfl) (by rfl) (by rfl) (by rfl) (by rfl) (by rfl)
    rfl (by decide) (by rfl)

/-! ### Cosine similarity lemmas and Claim C6 -/

theorem dotp_self (v : List ℝ) : dotp v v = normSq v := by
  unfold dotp normSq
  induction v with
  | nil => simp
  | cons x xs ih => simp [ih]

theorem normSq_nonneg (v : List ℝ) : 0 ≤ normSq v := by
  unfold normSq
  induction v with
  | nil => simp
  | cons x xs ih =>
    simp only [List.map_cons, List.sum_cons]
    have := mul_self_nonneg x
    linarith

theorem normSq_pos (v : List ℝ) (h : ∃ x ∈ v, x ≠ 0) : 0 < normSq v := by
  obtain ⟨x, hx, hxne⟩ := h
  induction v with
  | nil => cases hx
  | cons y ys ih =>
    have hy : normSq (y :: ys) = y * y + normSq ys := by
      unfold normSq
      simp
    rcases List.mem_cons.mp hx with rfl | hmem
    · have h1 : 0 < x * x := mul_self_pos.mpr hxne
      have h2 := normSq_nonneg ys
      rw [hy]
      linarith
    · have h3 := ih hmem
      have h4 := mul_self_nonneg y
      rw [hy]
      linarith

/-- Claim C6.  `cosineSimilarity v v = 1` for every vector with a non-zero
entry (exactly 1 over the reals, "approximately 1" in floating point);
the function returns exactly 0 whenever the lengths differ or either
squared norm is 0; and the guarded divisor is non-zero whenever the
division branch is taken, so the (total) function never divides by zero —
and, being total, never throws. -/
theorem claim_C6_thm :
    (∀ v : List ℝ, (∃ x ∈ v, x ≠ 0) → cosineSimilarity v v = 1) ∧
    (∀ v w : List ℝ, v.length ≠ w.length → cosineSimilarity v w = 0) ∧
    (∀ v w : List ℝ, normSq v = 0 ∨ normSq w = 0 → cosineSimilarity v w = 0) ∧
    (∀ v w : List ℝ, v.length = w.length → normSq v ≠ 0 → normSq w ≠ 0 →
      Real.sqrt (normSq v) * Real.sqrt (normSq w) ≠ 0) := by
  refine ⟨fun v hv => ?_, fun v w hlen => ?_, fun v w hn => ?_,
    fun v w _ hv hw => ?_⟩
  · have hpos : 0 < normSq v := normSq_pos v hv
    unfold cosineSimilarity
    rw [if_neg (by simp), if_neg (by push_neg; exact ⟨ne_of_gt hpos, ne_of_gt hpos⟩)]
    rw [dotp_self, Real.mul_self_sqrt (le_of_lt hpos)]
    exact div_self (ne_of_gt hpos)
  · unfold cosineSimilarity
    rw [if_pos hlen]
  · unfold cosineSimilarity
    by_cases hlen : v.length ≠ w.length
    · rw [if_pos hlen]
    · rw [if_neg hlen, if_pos hn]
  · have h1 : 0 < Real.sqrt (normSq v) :=
      Real.sqrt_pos.mpr (lt_of_le_of_ne (normSq_nonneg v) (Ne.symm hv))
    have h2 : 0 < Real.sqrt (normSq w) :=
      Real.sqrt_pos.mpr (lt_of_le_of_ne (normSq_nonneg w) (Ne.symm hw))
    exact ne_of_gt (mul_pos h1 h2)

/-- Witness for C6: self-similarity 1 on `[1, 0]`, zero on a length
mismatch, zero on a zero vector. -/
theorem claim_C6_witness :
    cosineSimilarity [(1:ℝ), 0] [(1:ℝ), 0] = 1 ∧
    cosineSimilarity [(1:ℝ)] [] = 0 ∧
    cosineSimilarity [(0:ℝ)] [(1:ℝ)] = 0 :=
  ⟨claim_C6_thm.1 [(1:ℝ), 0] ⟨1, by simp, one_ne_zero⟩,
   claim_C6_thm.2.1 [(1:ℝ)] [] (by simp),
   claim_C6_thm.2.2.1 [(0:ℝ)] [(1:ℝ)] (Or.inl (by simp [normSq]))⟩

/-! ### Fusion-fold characterization

`fuseBest` folds `fuseStep` over the combined candidate list; per fixed id
its `lookup` is the per-id fold `runBest`, for which first-match/maximum
lemmas follow. -/

theorem lookup_append_single (m : List (String × Scored)) (k : String) (v : Scored)
    (id : String) :
    (m ++ [(k, v)]).lookup id = match m.lookup id with
      | some x => some x
      | none => if id = k then some v else none := by
  induction m with
  | nil =>
    simp only [List.nil_append, List.lookup]
    by_cases h : id = k
    · simp [h]
    · simp [h, beq_eq_false_iff_ne.mpr h]
  | cons p ps ih =>
    simp only [List.cons_append, List.lookup]
    by_cases h : id = p.1
    · simp [beq_iff_eq.mpr h]
    · rw [show (id == p.1) = false from beq_eq_false_iff_ne.mpr h]
      simpa using ih

theorem lookup_cons_ite (k : String) (v : Scored) (ps : List (String × Scored))
    (id : String) :
    List.lookup id ((k, v) :: ps) = if id = k then some v else List.lookup id ps := by
  rw [List.lookup_cons]
  by_cases h : id = k
  · simp [h]
  · simp [h, beq_eq_false_iff_ne.mpr h]

theorem lookup_assocSet (m : List (String × Scored)) (k : String) (v : Scored)
    (id : String) :
    (assocSet m k v).lookup id =
      if id = k then (m.lookup k).map (fun _ => v) else m.lookup id := by
  induction m with
  | nil => by_cases h : id = k <;> simp [assocSet, List.lookup, h]
  | cons p ps ih =>
    obtain ⟨pk, pv⟩ := p
    simp only [assocSet, List.map_cons] at ih ⊢
    by_cases hp : pk = k
    · subst hp
      rw [show (if (pk, pv).1 = pk then (pk, v) else (pk, pv)) = (pk, v) by simp]
      simp only [lookup_cons_ite]
      by_cases h : id = pk
      · simp [h]
      · simp [h, ih]
    · rw [show (if (pk, pv).1 = k then (k, v) else (pk, pv)) = (pk, pv) by simp [hp]]
      simp only [lookup_cons_ite]
      by_cases h : id = pk
      · subst h
        simp [hp, ih]
      · by_cases h2 : id = k
        · subst h2
          simp [ih, show id ≠ pk from h]
        · simp [h, h2, ih]


theorem fuseStep_lookup (m : List (String × Scored)) (item : Scored) (id : String)
    (hid : id ≠ "") :
    (fuseStep m item).lookup id = updOne id (m.lookup id) item := by
  unfold fuseStep updOne
  by_cases hiid : getBookId item.doc = ""
  · rw [if_pos hiid, hiid, if_neg (Ne.symm hid)]
  · rw [if_neg hiid]
    by_cases heq : getBookId item.doc = id
    · rw [if_pos heq, heq]
      rcases hl : m.lookup id with _ | prev
      · simp only [lookup_append_single, hl]
        simp
      · simp only [hl]
        by_cases hsc : prev.score < item.score
        · rw [if_pos hsc, if_pos hsc, lookup_assocSet, if_pos rfl, hl]
          rfl
        · rw [if_neg hsc, if_neg hsc, hl]
    · rw [if_neg heq]
      rcases hl : m.lookup (getBookId item.doc) with _ | prev
      · rw [lookup_append_single]
        rcases hm : m.lookup id with _ | x
        · simp [Ne.symm heq]
        · simp
      · dsimp only
        by_cases hsc : prev.score < item.score
        · rw [if_pos hsc, lookup_assocSet, if_neg (Ne.symm heq)]
        · rw [if_neg hsc]

theorem lookup_foldl_fuseStep (l : List Scored) :
    ∀ (m : List (String × Scored)) (id : String), id ≠ "" →
      (l.foldl fuseStep m).lookup id = runBest id l (m.lookup id) := by
  induction l with
  | nil => intro m id _; rfl
  | cons item items ih =>
    intro m id hid
    simp only [List.foldl_cons, runBest] at ih ⊢
    rw [ih (fuseStep m item) id hid, fuseStep_lookup m item id hid]

theorem fuseBest_lookup (items : List Scored) (id : String) (hid : id ≠ "") :
    (fuseBest items).lookup id = runBest id items none := by
  unfold fuseBest
  rw [lookup_foldl_fuseStep items [] id hid]
  rfl

theorem runBest_no_match (id : String) (l : List Scored) (c : Option Scored)
    (h : ∀ e ∈ l, getBookId e.doc ≠ id) : runBest id l c = c := by
  induction l generalizing c with
  | nil => rfl
  | cons x xs ih =>
    simp only [runBest, List.foldl_cons] at ih ⊢
    rw [show updOne id c x = c by unfold updOne; rw [if_neg (h x (by simp))]]
    exact ih c (fun e he => h e (by simp [he]))

theorem runBest_append (id : String) (l1 l2 : List Scored) (c : Option Scored) :
    runBest id (l1 ++ l2) c = runBest id l2 (runBest id l1 c) := by
  unfold runBest
  rw [List.foldl_append]

theorem runBest_single_seg (id : String) (s : List Scored) (e : Scored)
    (t : List Scored) (c : Option Scored)
    (hs : ∀ x ∈ s, getBookId x.doc ≠ id) (ht : ∀ x ∈ t, getBookId x.doc ≠ id) :
    runBest id (s ++ e :: t) c = runBest id t (updOne id c e) := by
  rw [runBest_append, runBest_no_match id s c hs]
  unfold runBest
  rw [List.foldl_cons]

theorem runBest_keep (id : String) (l : List Scored) (p : Scored)
    (h : ∀ x ∈ l, ¬ (p.score < x.score)) : runBest id l (some p) = some p := by
  induction l with
  | nil => rfl
  | cons x xs ih =>
    simp only [runBest, List.foldl_cons] at ih ⊢
    rw [show updOne id (some p) x = some p by
      unfold updOne
      split
      · dsimp only
        rw [if_neg (h x (by simp))]
      · rfl]
    exact ih (fun e he => h e (by simp [he]))

theorem exists_unique_seg (l : List Scored) (e : Scored) (he : e ∈ l)
    (hnd : (l.map (fun s => getBookId s.doc)).Nodup) :
    ∃ s t, l = s ++ e :: t ∧
      (∀ x ∈ s, getBookId x.doc ≠ getBookId e.doc) ∧
      (∀ x ∈ t, getBookId x.doc ≠ getBookId e.doc) := by
  obtain ⟨s, t, rfl⟩ := List.append_of_mem he
  refine ⟨s, t, rfl, ?_, ?_⟩
  · rw [List.map_append, List.map_cons] at hnd
    obtain ⟨_, _, disj⟩ := List.nodup_append.mp hnd
    intro x hx hcon
    exact disj (List.mem_map_of_mem _ hx) (by simp [hcon])
  · rw [List.map_append, List.map_cons] at hnd
    obtain ⟨_, nd2, _⟩ := List.nodup_append.mp hnd
    have := (List.nodup_cons.mp nd2).1
    intro x hx hcon
    exact this (by rw [← hcon]; exact List.mem_map_of_mem _ hx)


theorem dotp_nil_right (v : List ℝ) : dotp v [] = 0 := by
  unfold dotp
  cases v <;> simp

theorem dotp_sq_le (v : List ℝ) : ∀ w : List ℝ, (dotp v w)^2 ≤ normSq v * normSq w := by
  induction v with
  | nil =>
    intro w
    have h1 : dotp [] w = 0 := by unfold dotp; simp
    have h2 : normSq ([] : List ℝ) = 0 := by unfold normSq; simp
    rw [h1, h2]
    simp
  | cons x xs ih =>
    intro w
    cases w with
    | nil =>
      rw [dotp_nil_right]
      have := mul_nonneg (normSq_nonneg (x :: xs)) (normSq_nonneg ([] : List ℝ))
      simpa using this
    | cons y ys =>
      have hd : dotp (x :: xs) (y :: ys) = x * y + dotp xs ys := by
        unfold dotp
        simp
      have hnx : normSq (x :: xs) = x * x + normSq xs := by
        unfold normSq
        simp
      have hny : normSq (y :: ys) = y * y + normSq ys := by
        unfold normSq
        simp
      rw [hd, hnx, hny]
      have hih := ih ys
      have ha := normSq_nonneg xs
      have hb := normSq_nonneg ys
      rcases eq_or_lt_of_le hb with hb0 | hbpos
      · have hd0 : dotp xs ys = 0 := by
          have : (dotp xs ys)^2 ≤ 0 := by
            calc (dotp xs ys)^2 ≤ normSq xs * normSq ys := hih
            _ = 0 := by rw [← hb0]; ring
          have h4 := sq_nonneg (dotp xs ys)
          nlinarith [this, h4]
        rw [hd0, ← hb0]
        nlinarith [mul_nonneg ha (sq_nonneg y)]
      · nlinarith [sq_nonneg (normSq ys * x - dotp xs ys * y), hih, hbpos,
          sq_nonneg y, mul_nonneg ha hb]

theorem cosine_le_one (a b : List ℝ) : cosineSimilarity a b ≤ 1 := by
  unfold cosineSimilarity
  split
  · exact zero_le_one
  · split
    · exact zero_le_one
    · rename_i hlen hnz
      push_neg at hnz
      obtain ⟨ha, hb⟩ := hnz
      have hapos : 0 < normSq a := lt_of_le_of_ne (normSq_nonneg a) (Ne.symm ha)
      have hbpos : 0 < normSq b := lt_of_le_of_ne (normSq_nonneg b) (Ne.symm hb)
      have hden : 0 < Real.sqrt (normSq a) * Real.sqrt (normSq b) :=
        mul_pos (Real.sqrt_pos.mpr hapos) (Real.sqrt_pos.mpr hbpos)
      rw [div_le_one hden]
      calc dotp a b ≤ |dotp a b| := le_abs_self _
      _ = Real.sqrt ((dotp a b)^2) := (Real.sqrt_sq_eq_abs _).symm
      _ ≤ Real.sqrt (normSq a * normSq b) := Real.sqrt_le_sqrt (dotp_sq_le a b)
      _ = Real.sqrt (normSq a) * Real.sqrt (normSq b) :=
        Real.sqrt_mul (normSq_nonneg a) _


theorem mem_insertDescBy {α β : Type} [LinearOrder β] (key : α → β) (a x : α) :
    ∀ l : List α, x ∈ insertDescBy key a l ↔ x = a ∨ x ∈ l := by
  intro l
  induction l with
  | nil => simp [insertDescBy]
  | cons b m ih =>
    unfold insertDescBy
    split
    · simp
    · simp only [List.mem_cons, ih]
      tauto

theorem mem_sortDescBy {α β : Type} [LinearOrder β] (key : α → β) (x : α) :
    ∀ l : List α, x ∈ sortDescBy key l ↔ x ∈ l := by
  intro l
  induction l with
  | nil => simp [sortDescBy]
  | cons b m ih =>
    unfold sortDescBy at ih ⊢
    rw [List.foldr_cons, mem_insertDescBy, ih, List.mem_cons]

theorem computeKeywordScore_ge_one (qct : List String) (coding : Bool) (d : Book) :
    1 ≤ computeKeywordScore qct coding d := by
  unfold computeKeywordScore
  have hc : (0:ℝ) ≤ ((qct.filter (fun t =>
      containsC t.data (lowerC (d.title ++ " " ++ d.author).data))).length : ℝ) / 10 := by
    positivity
  dsimp only
  split
  · linarith
  · linarith

theorem keywordDocsOf_score (qct : List String) (coding : Bool) (docs : List Book)
    (e : Scored) (h : e ∈ keywordDocsOf qct coding docs) : 1 ≤ e.score := by
  unfold keywordDocsOf at h
  obtain ⟨d, _, rfl⟩ := List.mem_map.mp h
  exact computeKeywordScore_ge_one qct coding d

theorem semanticDocsOf_score (emb : List ℝ) (all : List Book) (e : Scored)
    (h : e ∈ semanticDocsOf emb all) : e.score ≤ 1 := by
  unfold semanticDocsOf at h
  have h2 := List.mem_of_mem_take h
  rw [mem_sortDescBy] at h2
  obtain ⟨d, _, rfl⟩ := List.mem_map.mp h2
  exact cosine_le_one emb (d.embedding.getD [])

/-- Claim C4.  For all lexical and semantic candidate lists (with the
per-path unique, non-empty identifiers a `searchBooks` run produces), the
fused map holds, per identifier: when both paths score it, the entry with
the strictly higher score, and on ties the first-inserted — lexical —
entry (the kept score is the maximum of the two); when only one path
scores it, that entry (an absent score never wins, i.e. counts as minus
infinity); when neither does, nothing. -/
theorem claim_C4_thm (kw sem : List Scored)
    (hkw : (kw.map (fun s => getBookId s.doc)).Nodup)
    (hsem : (sem.map (fun s => getBookId s.doc)).Nodup)
    (id : String) (hid : id ≠ "") :
    (∀ e1, e1 ∈ kw → getBookId e1.doc = id → ∀ e2, e2 ∈ sem → getBookId e2.doc = id →
      (fuseBest (kw ++ sem)).lookup id = some (if e1.score < e2.score then e2 else e1) ∧
      (if e1.score < e2.score then e2 else e1).score = max e1.score e2.score) ∧
    (∀ e1, e1 ∈ kw → getBookId e1.doc = id → (∀ x ∈ sem, getBookId x.doc ≠ id) →
      (fuseBest (kw ++ sem)).lookup id = some e1) ∧
    (∀ e2, (∀ x ∈ kw, getBookId x.doc ≠ id) → e2 ∈ sem → getBookId e2.doc = id →
      (fuseBest (kw ++ sem)).lookup id = some e2) ∧
    ((∀ x ∈ kw, getBookId x.doc ≠ id) → (∀ x ∈ sem, getBookId x.doc ≠ id) →
      (fuseBest (kw ++ sem)).lookup id = none) := by
  refine ⟨?_, ?_, ?_, ?_⟩
  · intro e1 h1 hid1 e2 h2 hid2
    obtain ⟨s1, t1, rfl, hs1, ht1⟩ := exists_unique_seg kw e1 h1 hkw
    obtain ⟨s2, t2, rfl, hs2, ht2⟩ := exists_unique_seg sem e2 h2 hsem
    rw [hid1] at hs1 ht1
    rw [hid2] at hs2 ht2
    constructor
    · rw [fuseBest_lookup _ id hid, runBest_append,
        runBest_single_seg id s1 e1 t1 none hs1 ht1,
        runBest_no_match id t1 _ ht1,
        runBest_single_seg id s2 e2 t2 _ hs2 ht2,
        runBest_no_match id t2 _ ht2]
      unfold updOne
      rw [if_pos hid1]
      dsimp only
      rw [if_pos hid2]
      split <;> rfl
    · by_cases h : e1.score < e2.score
      · rw [if_pos h, max_eq_right (le_of_lt h)]
      · rw [if_neg h, max_eq_left (not_lt.mp h)]
  · intro e1 h1 hid1 hnone
    obtain ⟨s1, t1, rfl, hs1, ht1⟩ := exists_unique_seg kw e1 h1 hkw
    rw [hid1] at hs1 ht1
    rw [fuseBest_lookup _ id hid, runBest_append,
      runBest_single_seg id s1 e1 t1 none hs1 ht1,
      runBest_no_match id t1 _ ht1,
      runBest_no_match id sem _ hnone]
    unfold updOne
    rw [if_pos hid1]
  · intro e2 hnone h2 hid2
    obtain ⟨s2, t2, rfl, hs2, ht2⟩ := exists_unique_seg sem e2 h2 hsem
    rw [hid2] at hs2 ht2
    rw [fuseBest_lookup _ id hid, runBest_append,
      runBest_no_match id kw _ hnone,
      runBest_single_seg id s2 e2 t2 none hs2 ht2,
      runBest_no_match id t2 _ ht2]
    unfold updOne
    rw [if_pos hid2]
  · intro hk hs
    rw [fuseBest_lookup _ id hid, runBest_append,
      runBest_no_match id kw _ hk, runBest_no_match id sem _ hs]

/-- Claim C8.  An identifier scored by both paths in the same
`searchBooks` run always keeps its lexical entry: every
`computeKeywordScore` is at least 1, every cosine similarity is at most 1
(Cauchy–Schwarz), and on ties the first-inserted (lexical) entry is
retained by the strict-inequality replacement test. -/
theorem claim_C8_thm (qct : List String) (coding : Bool) (docs all : List Book)
    (emb : List ℝ) (id : String) (e1 e2 : Scored)
    (hid : id ≠ "")
    (hnd : (docs.map getBookId).Nodup)
    (h1 : e1 ∈ keywordDocsOf qct coding docs) (hid1 : getBookId e1.doc = id)
    (h2 : e2 ∈ semanticDocsOf emb all) (hid2 : getBookId e2.doc = id) :
    1 ≤ e1.score ∧ e2.score ≤ 1 ∧
    (fuseBest (keywordDocsOf qct coding docs ++ semanticDocsOf emb all)).lookup id
      = some e1 := by
  have hnd2 : ((keywordDocsOf qct coding docs).map (fun s => getBookId s.doc)).Nodup := by
    unfold keywordDocsOf
    rw [List.map_map]
    exact hnd
  have hk1 : 1 ≤ e1.score := keywordDocsOf_score qct coding docs e1 h1
  refine ⟨hk1, semanticDocsOf_score emb all e2 h2, ?_⟩
  obtain ⟨s1, t1, heq, hs1, ht1⟩ :=
    exists_unique_seg (keywordDocsOf qct coding docs) e1 h1 hnd2
  rw [hid1] at hs1 ht1
  rw [heq, fuseBest_lookup _ id hid, runBest_append,
    runBest_single_seg id s1 e1 t1 none hs1 ht1,
    runBest_no_match id t1 _ ht1]
  have hupd : updOne id none e1 = some e1 := by
    unfold updOne
    rw [if_pos hid1]
  rw [hupd]
  apply runBest_keep
  intro x hx
  have := semanticDocsOf_score emb all x hx
  intro hcon
  linarith


/-- Witness for C4: one lexical entry with score 2 and one semantic entry
with score 1 for the same id. -/
theorem claim_C4_witness :
    (fuseBest ([⟨⟨"b1", "", "", "", none, true, none, none⟩, (2:ℝ)⟩] ++
        [⟨⟨"b1", "", "", "", none, true, none, none⟩, (1:ℝ)⟩])).lookup "b1" =
      some (if (2:ℝ) < (1:ℝ)
        then ⟨⟨"b1", "", "", "", none, true, none, none⟩, (1:ℝ)⟩
        else ⟨⟨"b1", "", "", "", none, true, none, none⟩, (2:ℝ)⟩) ∧
    (if (2:ℝ) < (1:ℝ)
        then (⟨⟨"b1", "", "", "", none, true, none, none⟩, (1:ℝ)⟩ : Scored)
        else ⟨⟨"b1", "", "", "", none, true, none, none⟩, (2:ℝ)⟩).score
      = max (2:ℝ) (1:ℝ) :=
  (claim_C4_thm [⟨⟨"b1", "", "", "", none, true, none, none⟩, (2:ℝ)⟩]
    [⟨⟨"b1", "", "", "", none, true, none, none⟩, (1:ℝ)⟩]
    (by simp [getBookId]) (by simp [getBookId]) "b1" (by simp)).1
    ⟨⟨"b1", "", "", "", none, true, none, none⟩, (2:ℝ)⟩
    (List.mem_singleton.mpr rfl) (by simp [getBookId])
    ⟨⟨"b1", "", "", "", none, true, none, none⟩, (1:ℝ)⟩
    (List.mem_singleton.mpr rfl) (by simp [getBookId])

/-- Witness for C8: a lexical and a semantic candidate sharing id `b1`;
the fused entry is the lexical one. -/
theorem claim_C8_witness :
    1 ≤ (⟨⟨"b1", "", "", "", none, true, none, none⟩,
        computeKeywordScore [] false ⟨"b1", "", "", "", none, true, none, none⟩⟩ : Scored).score ∧
    (⟨⟨"b1", "", "", "", some [(1:ℝ)], true, none, none⟩,
        cosineSimilarity [(1:ℝ)] [(1:ℝ)]⟩ : Scored).score ≤ 1 ∧
    (fuseBest (keywordDocsOf [] false [⟨"b1", "", "", "", none, true, none, none⟩] ++
        semanticDocsOf [(1:ℝ)] [⟨"b1", "", "", "", some [(1:ℝ)], true, none, none⟩])).lookup "b1"
      = some ⟨⟨"b1", "", "", "", none, true, none, none⟩,
          computeKeywordScore [] false ⟨"b1", "", "", "", none, true, none, none⟩⟩ :=
  claim_C8_thm [] false [⟨"b1", "", "", "", none, true, none, none⟩]
    [⟨"b1", "", "", "", some [(1:ℝ)], true, none, none⟩] [(1:ℝ)] "b1"
    ⟨⟨"b1", "", "", "", none, true, none, none⟩,
      computeKeywordScore [] false ⟨"b1", "", "", "", none, true, none, none⟩⟩
    ⟨⟨"b1", "", "", "", some [(1:ℝ)], true, none, none⟩,
      cosineSimilarity [(1:ℝ)] [(1:ℝ)]⟩
    (by simp) (by simp [getBookId])
    (List.mem_singleton.mpr rfl) (by simp [getBookId])
    (List.mem_singleton.mpr rfl) (by simp [getBookId])

/-! ### Sortedness of the ranked output and Claim C5 -/

theorem pairwise_insertDescBy {α β : Type} [LinearOrder β] (key : α → β) (a : α)
    (l : List α) (h : l.Pairwise (fun x y => key y ≤ key x)) :
    (insertDescBy key a l).Pairwise (fun x y => key y ≤ key x) := by
  induction l with
  | nil => simp [insertDescBy]
  | cons b m ih =>
    rw [List.pairwise_cons] at h
    obtain ⟨hb, hm⟩ := h
    unfold insertDescBy
    split
    · rename_i hba
      rw [List.pairwise_cons]
      refine ⟨?_, List.pairwise_cons.mpr ⟨hb, hm⟩⟩
      intro y hy
      rcases List.mem_cons.mp hy with rfl | hy2
      · exact hba
      · exact le_trans (hb y hy2) hba
    · rename_i hba
      rw [List.pairwise_cons]
      refine ⟨?_, ih hm⟩
      intro y hy
      rcases (mem_insertDescBy key a y m).mp hy with rfl | hy2
      · exact le_of_lt (lt_of_not_le hba)
      · exact hb y hy2

theorem pairwise_sortDescBy {α β : Type} [LinearOrder β] (key : α → β)
    (l : List α) : (sortDescBy key l).Pairwise (fun x y => key y ≤ key x) := by
  induction l with
  | nil => simp [sortDescBy]
  | cons b m ih =>
    unfold sortDescBy at ih ⊢
    rw [List.foldr_cons]
    exact pairwise_insertDescBy key b _ ih

theorem rankDocs_length_le (kwDocs semDocs : List Scored) (dsa coding : Bool) :
    (rankDocs kwDocs semDocs dsa coding).length ≤ 5 := by
  unfold rankDocs
  dsimp only
  split
  · rw [List.length_take]
    omega
  · split
    · rw [List.length_take]
      omega
    · rw [List.length_take]
      omega

/-- Claim C5.  `searchBooks` returns at most 5 items on every input (both
catch paths return `[]` and the ranked path truncates), and the ranked doc
list is the doc-projection of a scored list that is sorted non-increasing
by fused score and drawn from the fused candidate map — the intent filters
and the truncation, applied after the sort, preserve that order. -/
theorem claim_C5_thm :
    (∀ (vocab : List String) (autosyn : List (String × List String))
        (semFlag : Bool) (store : Store) (q : String),
      (searchBooksT vocab autosyn semFlag store q).1.length ≤ 5) ∧
    (∀ (kwDocs semDocs : List Scored) (dsa coding : Bool),
      rankDocs kwDocs semDocs dsa coding =
        (rankedScored kwDocs semDocs dsa coding).map (fun s => s.doc) ∧
      (rankedScored kwDocs semDocs dsa coding).Pairwise
        (fun a b => b.score ≤ a.score) ∧
      ∀ e ∈ rankedScored kwDocs semDocs dsa coding,
        e ∈ (fuseBest (kwDocs ++ semDocs)).map (fun p => p.2)) := by
  constructor
  · intro vocab autosyn semFlag store q
    unfold searchBooksT
    dsimp only
    split
    · simp
    · split
      · simp
      · split
        · simp
        · exact rankDocs_length_le _ _ _ _
  · intro kwDocs semDocs dsa coding
    refine ⟨?_, ?_, ?_⟩
    · unfold rankDocs rankedScored
      dsimp only
      split
      · rw [List.filter_map, List.map_take]
        rfl
      · split
        · rw [List.filter_map, List.map_take]
          rfl
        · rw [List.map_take]
    · have hp : (combinedScored kwDocs semDocs).Pairwise
          (fun a b => b.score ≤ a.score) := pairwise_sortDescBy _ _
      unfold rankedScored
      split
      · exact ((hp.filter _).sublist (List.take_sublist _ _))
      · split
        · exact ((hp.filter _).sublist (List.take_sublist _ _))
        · exact hp.sublist (List.take_sublist _ _)
    · intro e he
      unfold rankedScored at he
      have he2 := List.mem_of_mem_take he
      have he3 : e ∈ combinedScored kwDocs semDocs := by
        rcases dsa with _ | _ <;> rcases coding with _ | _ <;>
          simp only [Bool.false_eq_true, if_true, if_false] at he2 <;>
          first
            | exact he2
            | exact (List.mem_filter.mp he2).1
      unfold combinedScored at he3
      rw [mem_sortDescBy] at he3
      exact he3

/-- Witness for C5 at a concrete store and query. -/
theorem claim_C5_witness :
    (searchBooksT [] [] false
      ⟨fun _ => .error (), .error (), fun _ => .error (), fun _ => .error ()⟩
      "database").1.length ≤ 5 :=
  claim_C5_thm.1 [] [] false _ "database"

/-! ### The auto-synonym table: counts, cap, order (Claim C9) -/

theorem lookupN_cons_ite {β : Type} (k : String) (v : β) (ps : List (String × β))
    (id : String) :
    List.lookup id ((k, v) :: ps) = if id = k then some v else List.lookup id ps := by
  rw [List.lookup_cons]
  by_cases h : id = k
  · simp [h]
  · simp [h, beq_eq_false_iff_ne.mpr h]

theorem lookupN_append_single {β : Type} (m : List (String × β)) (k : String)
    (v : β) (id : String) :
    (m ++ [(k, v)]).lookup id = match m.lookup id with
      | some x => some x
      | none => if id = k then some v else none := by
  induction m with
  | nil =>
    simp only [List.nil_append]
    rw [lookupN_cons_ite]
    rfl
  | cons p ps ih =>
    obtain ⟨pk, pv⟩ := p
    rw [List.cons_append, lookupN_cons_ite, lookupN_cons_ite]
    by_cases h : id = pk
    · simp [h]
    · simp [h, ih]

theorem lookupN_map_update {β : Type} (m : List (String × β)) (s : String)
    (f : β → β) (id : String) :
    (m.map (fun p => if p.1 = s then (p.1, f p.2) else p)).lookup id =
      if id = s then (m.lookup s).map f else m.lookup id := by
  induction m with
  | nil => by_cases h : id = s <;> simp [List.lookup, h]
  | cons p ps ih =>
    obtain ⟨pk, pv⟩ := p
    simp only [List.map_cons]
    by_cases hp : pk = s
    · subst hp
      rw [show (if ((pk, pv) : String × β).1 = pk then (pk, f pv) else (pk, pv))
          = (pk, f pv) by simp]
      rw [lookupN_cons_ite, lookupN_cons_ite]
      by_cases h : id = pk
      · simp [h]
      · simp [h, ih, lookupN_cons_ite]
    · rw [show (if ((pk, pv) : String × β).1 = s then (pk, f pv) else (pk, pv))
          = (pk, pv) by simp [hp]]
      rw [lookupN_cons_ite, lookupN_cons_ite]
      by_cases h : id = pk
      · subst h
        simp [hp, ih]
      · by_cases h2 : id = s
        · subst h2
          simp [ih, show id ≠ pk from h, lookupN_cons_ite]
        · simp [h, h2, ih, lookupN_cons_ite]

theorem lookupN_eq_none_of_not_mem_keys {β : Type} (m : List (String × β))
    (id : String) (h : id ∉ m.map Prod.fst) : m.lookup id = none := by
  induction m with
  | nil => rfl
  | cons p ps ih =>
    obtain ⟨pk, pv⟩ := p
    rw [lookupN_cons_ite]
    simp only [List.map_cons, List.mem_cons] at h
    push_neg at h
    rw [if_neg h.1]
    exact ih h.2

theorem mem_lookupN_of_nodup_keys {β : Type} (m : List (String × β)) (k : String)
    (v : β) (hm : (k, v) ∈ m) (hnd : (m.map Prod.fst).Nodup) :
    m.lookup k = some v := by
  induction m with
  | nil => cases hm
  | cons p ps ih =>
    obtain ⟨pk, pv⟩ := p
    rw [List.map_cons, List.nodup_cons] at hnd
    rw [lookupN_cons_ite]
    rcases List.mem_cons.mp hm with heq | hmem
    · rw [Prod.mk.injEq] at heq
      obtain ⟨rfl, rfl⟩ := heq
      rw [if_pos rfl]
    · have hk : k ≠ pk := by
        intro hcon
        apply hnd.1
        rw [← hcon]
        exact List.mem_map.mpr ⟨(k, v), hmem, rfl⟩
      rw [if_neg hk]
      exact ih hmem hnd.2


theorem lookupN_map_incr (m : List (String × Nat)) (s id : String) :
    (m.map (fun p => if p.1 = s then (p.1, p.2 + 1) else p)).lookup id =
      if id = s then (m.lookup s).map (fun x => x + 1) else m.lookup id :=
  lookupN_map_update m s (fun x => x + 1) id

theorem bump_lookup (m : List (String × Nat)) (s id : String) :
    (bump m s).lookup id =
      if id = s then some ((m.lookup s).getD 0 + 1) else m.lookup id := by
  unfold bump
  by_cases hs : (m.lookup s).isSome
  · rw [if_pos hs, lookupN_map_incr]
    obtain ⟨c, hc⟩ := Option.isSome_iff_exists.mp hs
    by_cases h : id = s <;> simp [h, hc]
  · rw [if_neg hs, lookupN_append_single]
    have hnone : m.lookup s = none := Option.not_isSome_iff_eq_none.mp hs
    by_cases h : id = s
    · subst h
      rw [hnone]
      simp [hnone]
    · cases hm : m.lookup id <;> simp [h, hm]

theorem bump_keys (m : List (String × Nat)) (s : String) :
    (bump m s).map Prod.fst =
      if (m.lookup s).isSome then m.map Prod.fst else m.map Prod.fst ++ [s] := by
  unfold bump
  split
  · rw [List.map_map]
    apply List.map_congr_left
    intro p hp
    by_cases h : p.1 = s <;> simp [h]
  · rw [List.map_append]
    rfl

theorem lookupN_isSome_of_mem_keys {β : Type} (m : List (String × β)) (s : String)
    (h : s ∈ m.map Prod.fst) : (m.lookup s).isSome := by
  induction m with
  | nil => cases h
  | cons p ps ih =>
    obtain ⟨pk, pv⟩ := p
    rw [lookupN_cons_ite]
    by_cases hs : s = pk
    · simp [hs]
    · rw [if_neg hs]
      simp only [List.map_cons, List.mem_cons] at h
      rcases h with h | h
      · exact absurd h hs
      · exact ih h

theorem bump_keys_nodup (m : List (String × Nat)) (s : String)
    (h : (m.map Prod.fst).Nodup) : ((bump m s).map Prod.fst).Nodup := by
  rw [bump_keys]
  split
  · exact h
  · rename_i hnone
    rw [List.nodup_append]
    refine ⟨h, List.nodup_singleton s, ?_⟩
    intro x hx hxs
    rw [List.mem_singleton] at hxs
    subst hxs
    exact hnone (lookupN_isSome_of_mem_keys m x hx)


theorem bumpAll_lookup (u : List String) (t : String) :
    ∀ (m : List (String × Nat)), u.Nodup → ∀ id : String,
      (bumpAll m u t).lookup id =
        if id ∈ u ∧ id ≠ t then some ((m.lookup id).getD 0 + 1)
        else m.lookup id := by
  induction u with
  | nil =>
    intro m _ id
    simp [bumpAll]
  | cons x u' ih =>
    intro m hnd id
    rw [List.nodup_cons] at hnd
    unfold bumpAll at ih ⊢
    rw [List.foldl_cons]
    rw [ih _ hnd.2 id]
    by_cases hxt : x = t
    · rw [if_pos hxt]
      by_cases hcond : id ∈ u' ∧ id ≠ t
      · rw [if_pos hcond, if_pos ⟨List.mem_cons_of_mem _ hcond.1, hcond.2⟩]
      · rw [if_neg hcond, if_neg ?_]
        rintro ⟨h1, h2⟩
        rcases List.mem_cons.mp h1 with rfl | hh
        · exact h2 hxt
        · exact hcond ⟨hh, h2⟩
    · rw [if_neg hxt]
      by_cases hidx : id = x
      · subst hidx
        rw [if_neg (fun hc => hnd.1 hc.1)]
        rw [bump_lookup, if_pos rfl, if_pos ⟨List.mem_cons_self _ _, hxt⟩]
      · rw [bump_lookup, if_neg hidx]
        by_cases hcond : id ∈ u' ∧ id ≠ t
        · rw [if_pos hcond, if_pos ⟨List.mem_cons_of_mem _ hcond.1, hcond.2⟩]
        · rw [if_neg hcond, if_neg ?_]
          rintro ⟨h1, h2⟩
          rcases List.mem_cons.mp h1 with rfl | hh
          · exact hidx rfl
          · exact hcond ⟨hh, h2⟩

theorem bumpAll_keys_nodup (u : List String) (t : String) :
    ∀ m : List (String × Nat), (m.map Prod.fst).Nodup →
      ((bumpAll m u t).map Prod.fst).Nodup := by
  induction u with
  | nil => intro m hm; simpa [bumpAll] using hm
  | cons x u' ih =>
    intro m hm
    unfold bumpAll at ih ⊢
    rw [List.foldl_cons]
    apply ih
    split
    · exact hm
    · exact bump_keys_nodup m x hm

theorem nodup_foldl_setAdd (l : List String) :
    ∀ acc : List String, acc.Nodup → (l.foldl setAdd acc).Nodup := by
  induction l with
  | nil => intro acc h; simpa using h
  | cons x xs ih =>
    intro acc h
    rw [List.foldl_cons]
    apply ih
    unfold setAdd
    split
    · exact h
    · rw [List.nodup_append]
      exact ⟨h, List.nodup_singleton x, by
        intro y hy hz
        rw [List.mem_singleton] at hz
        subst hz
        exact (by assumption : ¬ y ∈ acc) hy⟩

theorem uniqTokens_nodup (title : String) : (uniqTokens title).Nodup :=
  nodup_foldl_setAdd _ [] List.nodup_nil

theorem countBoth_cons (t id : String) (b : Book) (bs : List Book) :
    countBoth t id (b :: bs) =
      (if t ∈ uniqTokens b.title ∧ id ∈ uniqTokens b.title then 1 else 0) +
        countBoth t id bs := by
  unfold countBoth
  rw [List.filter_cons]
  split
  · rename_i h
    rw [decide_eq_true_eq] at h
    rw [if_pos h]
    simp [Nat.add_comm]
  · rename_i h
    rw [decide_eq_true_eq] at h
    rw [if_neg h]
    simp


theorem coocc_fold_lookup (t : String) (books : List Book) :
    ∀ (m : List (String × Nat)) (f : String → Nat),
      (∀ id, m.lookup id = if id ≠ t ∧ 0 < f id then some (f id) else none) →
      ∀ id,
        (books.foldl (fun m b =>
            let u := uniqTokens b.title
            if t ∈ u then bumpAll m u t else m) m).lookup id =
          if id ≠ t ∧ 0 < f id + countBoth t id books
          then some (f id + countBoth t id books) else none := by
  induction books with
  | nil =>
    intro m f hm id
    have h0 : countBoth t id [] = 0 := by
      unfold countBoth
      simp
    rw [List.foldl_nil, h0, hm id]
    simp
  | cons b bs ih =>
    intro m f hm id
    rw [List.foldl_cons, countBoth_cons]
    dsimp only
    by_cases htu : t ∈ uniqTokens b.title
    · rw [if_pos htu]
      have hm' : ∀ id2,
          (bumpAll m (uniqTokens b.title) t).lookup id2 =
            if id2 ≠ t ∧ 0 < (if id2 ∈ uniqTokens b.title ∧ id2 ≠ t
              then f id2 + 1 else f id2)
            then some (if id2 ∈ uniqTokens b.title ∧ id2 ≠ t
              then f id2 + 1 else f id2) else none := by
        intro id2
        rw [bumpAll_lookup _ t m (uniqTokens_nodup _) id2]
        by_cases hc : id2 ∈ uniqTokens b.title ∧ id2 ≠ t
        · rw [if_pos hc, hm id2, if_pos hc,
            if_pos (show id2 ≠ t ∧ 0 < f id2 + 1 from ⟨hc.2, Nat.succ_pos _⟩)]
          by_cases hf : 0 < f id2
          · rw [if_pos ⟨hc.2, hf⟩]
            simp
          · rw [if_neg (by rintro ⟨_, hb⟩; exact hf hb)]
            have hf0 : f id2 = 0 := by omega
            simp [hf0]
        · rw [if_neg hc, if_neg hc, hm id2]
      rw [ih _ _ hm' id]
      by_cases hidt : id = t
      · rw [if_neg (by rintro ⟨hh, _⟩; exact hh hidt),
          if_neg (by rintro ⟨hh, _⟩; exact hh hidt)]
      · have harith :
            (if id ∈ uniqTokens b.title ∧ id ≠ t then f id + 1 else f id) +
              countBoth t id bs =
            f id + ((if t ∈ uniqTokens b.title ∧ id ∈ uniqTokens b.title
              then 1 else 0) + countBoth t id bs) := by
          by_cases hu : id ∈ uniqTokens b.title
          · rw [if_pos ⟨hu, hidt⟩, if_pos ⟨htu, hu⟩]
            omega
          · rw [if_neg (by rintro ⟨hh, _⟩; exact hu hh),
              if_neg (by rintro ⟨_, hh⟩; exact hu hh)]
            omega
        rw [harith]
    · rw [if_neg htu,
        if_neg (show ¬ (t ∈ uniqTokens b.title ∧ id ∈ uniqTokens b.title) from
          fun hc => htu hc.1)]
      have := ih m f hm id
      simpa using this


theorem cooccList_lookup (t : String) (books : List Book) (id : String) :
    (cooccList t books).lookup id =
      if id ≠ t ∧ 0 < countBoth t id books
      then some (countBoth t id books) else none := by
  have h := coocc_fold_lookup t books [] (fun _ => 0)
    (by intro id2; simp [List.lookup]) id
  unfold cooccList
  simpa using h

theorem cooccList_keys_nodup (t : String) (books : List Book) :
    ((cooccList t books).map Prod.fst).Nodup := by
  unfold cooccList
  suffices h : ∀ m : List (String × Nat), (m.map Prod.fst).Nodup →
      ((books.foldl (fun m b =>
        let u := uniqTokens b.title
        if t ∈ u then bumpAll m u t else m) m).map Prod.fst).Nodup by
    exact h [] (by simp)
  induction books with
  | nil => intro m hm; simpa using hm
  | cons b bs ih =>
    intro m hm
    rw [List.foldl_cons]
    apply ih
    dsimp only
    split
    · exact bumpAll_keys_nodup _ t m hm
    · exact hm

theorem cooccList_count (t : String) (books : List Book) (p : String × Nat)
    (hp : p ∈ cooccList t books) :
    p.2 = countBoth t p.1 books ∧ p.1 ≠ t ∧ 0 < p.2 := by
  have hl : (cooccList t books).lookup p.1 = some p.2 := by
    have := mem_lookupN_of_nodup_keys (cooccList t books) p.1 p.2
      (by rwa [Prod.mk.eta]) (cooccList_keys_nodup t books)
    exact this
  rw [cooccList_lookup] at hl
  by_cases hc : p.1 ≠ t ∧ 0 < countBoth t p.1 books
  · rw [if_pos hc] at hl
    injection hl with hv
    exact ⟨hv.symm, hc.1, by omega⟩
  · rw [if_neg hc] at hl
    cases hl

theorem pairwise_indexOf_of_nodup {α : Type} [DecidableEq α] (l : List α)
    (h : l.Nodup) : l.Pairwise (fun a b => l.indexOf a < l.indexOf b) := by
  rw [List.pairwise_iff_get]
  intro i j hij
  rw [List.get_indexOf h i, List.get_indexOf h j]
  exact hij

theorem pairwise_insertDescBy_stable {α β : Type} [LinearOrder β] (key : α → β)
    (prec : α → α → Prop) (a : α) (l : List α)
    (h : l.Pairwise (fun x y =>
      key y < key x ∨ (key x = key y ∧ prec x y)))
    (ha : ∀ b ∈ l, prec a b) :
    (insertDescBy key a l).Pairwise (fun x y =>
      key y < key x ∨ (key x = key y ∧ prec x y)) := by
  induction l with
  | nil => simp [insertDescBy]
  | cons b m ih =>
    rw [List.pairwise_cons] at h
    obtain ⟨hb, hm⟩ := h
    unfold insertDescBy
    split
    · rename_i hba
      rw [List.pairwise_cons]
      refine ⟨?_, List.pairwise_cons.mpr ⟨hb, hm⟩⟩
      intro y hy
      rcases List.mem_cons.mp hy with rfl | hy2
      · rcases lt_or_eq_of_le hba with hlt | heq
        · exact Or.inl hlt
        · exact Or.inr ⟨heq.symm, ha y (List.mem_cons_self _ _)⟩
      · have hyb : key y ≤ key b := by
          rcases hb y hy2 with hlt | ⟨heq, _⟩
          · exact le_of_lt hlt
          · exact le_of_eq heq.symm
        rcases lt_or_eq_of_le (le_trans hyb hba) with hlt | heq
        · exact Or.inl hlt
        · exact Or.inr ⟨heq.symm, ha y (List.mem_cons_of_mem _ hy2)⟩
    · rename_i hba
      rw [List.pairwise_cons]
      refine ⟨?_, ih hm (fun y hy => ha y (List.mem_cons_of_mem _ hy))⟩
      intro y hy
      rcases (mem_insertDescBy key a y m).mp hy with rfl | hy2
      · exact Or.inl (lt_of_not_le hba)
      · exact hb y hy2

theorem pairwise_sortDescBy_stable {α β : Type} [LinearOrder β] (key : α → β)
    (prec : α → α → Prop) (l : List α) (h : l.Pairwise prec) :
    (sortDescBy key l).Pairwise (fun x y =>
      key y < key x ∨ (key x = key y ∧ prec x y)) := by
  induction l with
  | nil => simp [sortDescBy]
  | cons b m ih =>
    rw [List.pairwise_cons] at h
    obtain ⟨hb, hm⟩ := h
    unfold sortDescBy at ih ⊢
    rw [List.foldr_cons]
    apply pairwise_insertDescBy_stable key prec b _ (ih hm)
    intro y hy
    rw [show List.foldr (insertDescBy key) [] m = sortDescBy key m from rfl,
      mem_sortDescBy] at hy
    exact hb y hy


/-- Claim C9.  For every catalog and token, the auto-derived synonym list
contains at most 6 tokens; every listed token has co-occurrence count at
least 2 with the key (count = number of catalog entries whose stop-filtered
title tokens contain both, and a token never lists itself); and the list is
sorted by strictly descending co-occurrence count with insertion order into
the co-occurrence map as the tie-break. -/
theorem claim_C9_thm (books : List Book) (t : String) :
    (autoSynonymsFor t books).length ≤ 6 ∧
    (∀ s ∈ autoSynonymsFor t books, 2 ≤ countBoth t s books ∧ s ≠ t) ∧
    (autoSynonymsFor t books).Pairwise (fun s1 s2 =>
      countBoth t s2 books < countBoth t s1 books ∨
      (countBoth t s1 books = countBoth t s2 books ∧
        ((cooccList t books).map Prod.fst).indexOf s1 <
          ((cooccList t books).map Prod.fst).indexOf s2)) := by
  have hmemps : ∀ p ∈ (sortDescBy (fun p => p.2)
      ((cooccList t books).filter (fun p => 2 ≤ p.2))).take 6,
      p ∈ (cooccList t books).filter (fun p => 2 ≤ p.2) := fun p hp =>
    (mem_sortDescBy _ _ _).mp (List.mem_of_mem_take hp)
  have hmemco : ∀ p ∈ (sortDescBy (fun p => p.2)
      ((cooccList t books).filter (fun p => 2 ≤ p.2))).take 6,
      p ∈ cooccList t books := fun p hp => (List.mem_filter.mp (hmemps p hp)).1
  refine ⟨?_, ?_, ?_⟩
  · unfold autoSynonymsFor
    rw [List.length_map, List.length_take]
    omega
  · intro s hs
    unfold autoSynonymsFor at hs
    obtain ⟨p, hp, rfl⟩ := List.mem_map.mp hs
    have hfilt := hmemps p hp
    have hco := hmemco p hp
    obtain ⟨hcnt, hne, _⟩ := cooccList_count t books p hco
    have h2 : 2 ≤ p.2 := by
      have := (List.mem_filter.mp hfilt).2
      rwa [decide_eq_true_eq] at this
    exact ⟨by omega, hne⟩
  · unfold autoSynonymsFor
    rw [List.pairwise_map]
    have hnd := cooccList_keys_nodup t books
    have hpw0 : (cooccList t books).Pairwise (fun p q =>
        ((cooccList t books).map Prod.fst).indexOf p.1 <
          ((cooccList t books).map Prod.fst).indexOf q.1) :=
      (@List.pairwise_map (String × Nat) String Prod.fst
        (fun a b => ((cooccList t books).map Prod.fst).indexOf a <
          ((cooccList t books).map Prod.fst).indexOf b)
        (cooccList t books)).mp (pairwise_indexOf_of_nodup _ hnd)
    have hpwf := List.Pairwise.sublist
      (@List.filter_sublist (String × Nat) (fun p => decide (2 ≤ p.2))
        (cooccList t books)) hpw0
    have hq := pairwise_sortDescBy_stable (fun p => p.2) _ _ hpwf
    have hqt := List.Pairwise.sublist (List.take_sublist 6 _) hq
    apply List.Pairwise.imp_of_mem ?_ hqt
    intro p q hp hq2 hr
    obtain ⟨hcp, _, _⟩ := cooccList_count t books p (hmemco p hp)
    obtain ⟨hcq, _, _⟩ := cooccList_count t books q (hmemco q hq2)
    rcases hr with hlt | ⟨heq, hprec⟩
    · exact Or.inl (by rw [← hcp, ← hcq]; exact hlt)
    · exact Or.inr ⟨by rw [← hcp, ← hcq]; exact heq, hprec⟩

/-- Witness for C9: a two-book catalog where `structures` co-occurs twice
with `algorithms` and is listed as its auto-synonym. -/
theorem claim_C9_witness :
    "structures" ∈ autoSynonymsFor "algorithms"
      [⟨"1", "", "algorithms structures", "", none, true, none, none⟩,
       ⟨"2", "", "algorithms structures", "", none, true, none, none⟩] ∧
    2 ≤ countBoth "algorithms" "structures"
      [⟨"1", "", "algorithms structures", "", none, true, none, none⟩,
       ⟨"2", "", "algorithms structures", "", none, true, none, none⟩] ∧
    "structures" ≠ "algorithms" :=
  ⟨by decide,
   (claim_C9_thm
      [⟨"1", "", "algorithms structures", "", none, true, none, none⟩,
       ⟨"2", "", "algorithms structures", "", none, true, none, none⟩]
      "algorithms").2.1 "structures" (by decide)⟩

end LibraryAI
